import Mathlib

/-!
Verification development for the multi-agent exploration/inspection
operation (`MultiagentSystem`, with the planners shared with `Kapi_Flie`).

The Python sources are shallowly embedded:

* `structures.structures.Point2D` becomes a structure over `ℚ`
  (the source works on IEEE floats; all concrete inputs used here are
  small decimal values on which float arithmetic is exact, and every
  comparison `sqrt d < v` on nonnegative reals is embedded as the
  equivalent `d < v^2`, since `sqrt` is strictly monotone).
* Python `dict` objects keyed by points become association lists with
  Python's assignment semantics (`dictInsert`: overwrite in place when
  the key is present, append otherwise).
* the two controller threads, the robot callback threads, the event
  flags and the shared queue become an interleaving transition system
  (`OpCfg`, `opStep`): each `with lock` region of the source is one
  atomic step, and the scheduler picks an arbitrary label sequence.
* fallible or blocking operations (waiting on an unset event, `get`
  on an empty queue) are steps that are simply not enabled.
-/

/-- `structures.structures.Point2D`: a 2D point, used both as a value and
as a dictionary key (structural equality, as in the source dataclass). -/
structure Point2D where
  x : ℚ
  y : ℚ
deriving DecidableEq, Repr

/-- Squared Euclidean distance between two points.  The source computes
`((p1.x - p2.x) ** 2 + (p1.y - p2.y) ** 2) ** 0.5`; that square root is
only ever used in comparisons against nonnegative bounds and in `min`
selections, both of which are invariant under the strictly monotone
`sqrt`, so the embedding works with the square throughout. -/
def dist2 (p q : Point2D) : ℚ :=
  (p.x - q.x) ^ 2 + (p.y - q.y) ^ 2

/-- `configuration.operation.DRONE_VISIBILITY = 1.0`. -/
def DRONE_VISIBILITY : ℚ := 1

/-- Python `d.get(k)` / `k in d` on a point-keyed dict modelled as an
association list: first (and, invariantly, only) binding of the key. -/
def dictGet? {V : Type} (d : List (Point2D × V)) (k : Point2D) : Option V :=
  (d.find? (fun kv => kv.1 = k)).map (fun kv => kv.2)

/-- Python `d[k] = v`: overwrite the binding in place when `k` is
present (a dict has a single slot per key, so replacing the first
binding is exact), append a new binding at the end otherwise. -/
def dictInsert {V : Type} (d : List (Point2D × V)) (k : Point2D) (v : V) :
    List (Point2D × V) :=
  match d with
  | [] => [(k, v)]
  | kv :: rest => if kv.1 = k then (k, v) :: rest else kv :: dictInsert rest k v

/-- A registry record of `all_points`:
`(mission_id, processed_flag, detection_time, inspection_time)`. -/
abbrev PointRecord := ℕ × Bool × ℚ × ℚ

/-- The global `all_points` dictionary. -/
abbrev Registry := List (Point2D × PointRecord)

/-- `ExplorationController._is_too_close`: true iff some point of the
current mission is strictly closer than `DRONE_VISIBILITY` (the source
compares `sqrt dist2 < DRONE_VISIBILITY`, embedded as
`dist2 < DRONE_VISIBILITY ^ 2`). -/
def is_too_close (ptsCur : List Point2D) (x y : ℚ) : Bool :=
  ptsCur.any (fun pt => dist2 pt ⟨x, y⟩ < DRONE_VISIBILITY ^ 2)

/-- The absolute coordinates computed by
`ExplorationController._on_point`:
`base_positions[current_mission_id] + point` (component-wise; the index
is always in range when the callback can fire, so the `getD` default is
never consulted on a reachable call). -/
def absPoint (basePositions : List Point2D) (missionId : ℕ)
    (p : Point2D) : Point2D :=
  let base := basePositions.getD missionId ⟨0, 0⟩
  ⟨base.x + p.x, base.y + p.y⟩

/-- The guarded body of `ExplorationController._on_point` (the part
under `with self._lock`), acting on an already absolute point: either
append it to the current mission list and insert a fresh registry
record, or drop it when it is too close to an already retained point.
`now` is the value `time()` returns at this call. -/
def acceptPoint (missionId : ℕ) (now : ℚ) (ptsCur : List Point2D)
    (reg : Registry) (pt : Point2D) : List Point2D × Registry :=
  if is_too_close ptsCur pt.x pt.y then
    (ptsCur, reg)
  else
    (ptsCur ++ [pt], dictInsert reg pt (missionId, false, now, 0))

/-- `ExplorationController._on_point`: translate the relative point to
absolute coordinates against the current mission's base, then run the
guarded accept-or-drop body. -/
def explorationOnPoint (basePositions : List Point2D) (missionId : ℕ)
    (now : ℚ) (ptsCur : List Point2D) (reg : Registry) (p : Point2D) :
    List Point2D × Registry :=
  acceptPoint missionId now ptsCur reg (absPoint basePositions missionId p)

/-- `InspectionController._on_point`: when the reached point is in the
registry with the inspector's current mission id, mark it inspected,
stamp the inspection time and record the robot telemetry temperature
(`temp`, which may be `none` as in `get("temperature", None)`);
otherwise leave the registry and the temperature map unchanged. -/
def inspectionOnPoint (missionId : ℕ) (temp : Option ℚ) (now : ℚ)
    (reg : Registry) (temps : List (Point2D × Option ℚ)) (p : Point2D) :
    Registry × List (Point2D × Option ℚ) :=
  match dictGet? reg p with
  | some (missionIdx, _, detectedTime, _) =>
      if missionIdx = missionId then
        (dictInsert reg p (missionIdx, true, detectedTime, now),
         dictInsert temps p temp)
      else (reg, temps)
  | none => (reg, temps)

/-- One step of Python's `min` scan: keep the best-so-far `b` (when
there is one) unless the new candidate `a` is... rather, keep `a`
unless the already computed minimum `b` of the tail is strictly
smaller, so that on ties the earlier element wins. -/
def minBy {α : Type} (f : α → ℚ) (a : α) : Option α → α
  | none => a
  | some b => if f b < f a then b else a

/-- Python `min(remaining, key=f)`: the first element attaining the
minimal key (later elements replace the running minimum only when
strictly smaller). -/
def argminFirst {α : Type} (f : α → ℚ) : List α → Option α
  | [] => none
  | a :: rest => some (minBy f a (argminFirst f rest))

theorem minBy_cases {α : Type} (f : α → ℚ) (a : α) (o : Option α) :
    minBy f a o = a ∨ ∃ b, o = some b ∧ minBy f a o = b := by
  cases o with
  | none => left; rfl
  | some b =>
      rw [minBy]
      by_cases hc : f b < f a
      · right; exact ⟨b, rfl, if_pos hc⟩
      · left; exact if_neg hc

theorem argminFirst_mem {α : Type} (f : α → ℚ) :
    ∀ (l : List α) (a : α), argminFirst f l = some a → a ∈ l := by
  intro l
  induction l with
  | nil => simp [argminFirst]
  | cons x xs ih =>
      intro a h
      rw [argminFirst] at h
      injection h with h
      rcases minBy_cases f x (argminFirst f xs) with hm | ⟨b, hb, hm⟩
      · rw [hm] at h
        exact h ▸ List.mem_cons_self _ _
      · rw [hm] at h
        exact h ▸ List.mem_cons_of_mem _ (ih _ hb)

theorem argminFirst_eq_none {α : Type} (f : α → ℚ) (l : List α) :
    argminFirst f l = none ↔ l = [] := by
  cases l with
  | nil => simp [argminFirst]
  | cons x xs => simp [argminFirst]

/-- The `while remaining:` loop of
`NearestNeighborPlanner.plan_path`: repeatedly pick the closest
remaining point (`min(remaining, key=distance-to-current)`), append it
to the path and remove it (`remaining.remove`, first occurrence).
Structured with a fuel argument instantiated to `remaining.length`,
which matches the loop exactly: every iteration removes one element,
so the loop runs `remaining.length` times. -/
def nnLoop : ℕ → Point2D → List Point2D → List Point2D
  | 0, _, _ => []
  | fuel + 1, current, remaining =>
      match argminFirst (fun p => dist2 current p) remaining with
      | none => []
      | some nextPoint =>
          nextPoint :: nnLoop fuel nextPoint (remaining.erase nextPoint)

/-- `NearestNeighborPlanner.plan_path`. -/
def nnPlanPath (startPoint : Point2D) (points : List Point2D) :
    List Point2D :=
  if points = [] then [] else nnLoop points.length startPoint points

theorem nnLoop_perm :
    ∀ (fuel : ℕ) (current : Point2D) (remaining : List Point2D),
      remaining.length ≤ fuel →
      (nnLoop fuel current remaining).Perm remaining := by
  intro fuel
  induction fuel with
  | zero =>
      intro current remaining h
      have : remaining = [] := List.length_eq_zero.mp (Nat.le_zero.mp h)
      simp [this, nnLoop]
  | succ n ih =>
      intro current remaining h
      rw [nnLoop]
      cases hx : argminFirst (fun p => dist2 current p) remaining with
      | none =>
          have : remaining = [] := (argminFirst_eq_none _ _).mp hx
          simp [this]
      | some nextPoint =>
          have hm := argminFirst_mem _ _ _ hx
          have hlen : (remaining.erase nextPoint).length ≤ n := by
            rw [List.length_erase_of_mem hm]
            omega
          exact ((ih nextPoint _ hlen).cons nextPoint).trans
            (List.perm_cons_erase hm).symm

/-- The nearest-neighbor planner returns a permutation of its input. -/
theorem nnPlanPath_perm (startPoint : Point2D) (points : List Point2D) :
    (nnPlanPath startPoint points).Perm points := by
  unfold nnPlanPath
  split
  · simp_all
  · exact nnLoop_perm _ _ _ le_rfl

/-! ### Dictionary lemmas (Python `dict` semantics on the association
list model) -/

/-- The keys of a point-keyed dictionary. -/
def dictKeys {V : Type} (d : List (Point2D × V)) : List Point2D :=
  d.map Prod.fst

theorem dictGet?_dictInsert_self {V : Type} (d : List (Point2D × V))
    (k : Point2D) (v : V) : dictGet? (dictInsert d k v) k = some v := by
  induction d with
  | nil => simp [dictInsert, dictGet?]
  | cons a d ih =>
      by_cases ha : a.1 = k
      · simp [dictInsert, dictGet?, ha]
      · simpa [dictInsert, dictGet?, ha] using ih

theorem dictGet?_dictInsert_ne {V : Type} (d : List (Point2D × V))
    (k k' : Point2D) (v : V) (hne : k' ≠ k) :
    dictGet? (dictInsert d k v) k' = dictGet? d k' := by
  have hne' : k ≠ k' := Ne.symm hne
  induction d with
  | nil => simp [dictInsert, dictGet?, hne']
  | cons a d ih =>
      by_cases ha : a.1 = k
      · by_cases ha' : a.1 = k'
        · exact absurd (ha'.symm.trans ha) hne
        · simp [dictInsert, dictGet?, ha, ha', hne, hne']
      · by_cases ha' : a.1 = k'
        · simp [dictInsert, dictGet?, ha, ha', hne, hne']
        · simpa [dictInsert, dictGet?, ha, ha', hne, hne'] using ih

theorem mem_dictInsert_key {V : Type} (d : List (Point2D × V))
    (k : Point2D) (v : V) :
    ∀ q ∈ dictKeys (dictInsert d k v), q = k ∨ q ∈ dictKeys d := by
  induction d with
  | nil => simp [dictInsert, dictKeys]
  | cons a d ih =>
      intro q hq
      by_cases ha : a.1 = k
      · simp only [dictInsert, ha, if_true, dictKeys, List.map_cons,
          List.mem_cons] at hq ⊢
        rcases hq with hq | hq
        · exact Or.inl hq
        · exact Or.inr (Or.inr hq)
      · simp only [dictInsert, ha, if_false, dictKeys, List.map_cons,
          List.mem_cons] at hq ⊢
        rcases hq with hq | hq
        · exact Or.inr (Or.inl hq)
        · rcases ih q hq with h | h
          · exact Or.inl h
          · exact Or.inr (Or.inr h)

theorem dictKeys_dictInsert_nodup {V : Type} (d : List (Point2D × V))
    (k : Point2D) (v : V) (h : (dictKeys d).Nodup) :
    (dictKeys (dictInsert d k v)).Nodup := by
  induction d with
  | nil => simp [dictInsert, dictKeys]
  | cons a d ih =>
      rw [dictKeys, List.map_cons, List.nodup_cons] at h
      by_cases ha : a.1 = k
      · simp only [dictInsert, ha, if_true, dictKeys, List.map_cons,
          List.nodup_cons]
        exact ⟨ha ▸ h.1, h.2⟩
      · simp only [dictInsert, ha, if_false, dictKeys, List.map_cons,
          List.nodup_cons]
        refine ⟨?_, ih h.2⟩
        intro hmem
        rcases mem_dictInsert_key d k v a.1 hmem with hk | hk
        · exact ha hk
        · exact h.1 hk

/-! ### Dedupe: the per-mission pairwise-distance invariant -/

/-- Two points "respect the visibility radius": their squared distance
is at least `DRONE_VISIBILITY ^ 2` (i.e. their Euclidean distance is at
least `DRONE_VISIBILITY`). -/
def farApart (p q : Point2D) : Prop := DRONE_VISIBILITY ^ 2 ≤ dist2 p q

theorem acceptPoint_pairwise (missionId : ℕ) (now : ℚ)
    (ptsCur : List Point2D) (reg : Registry) (pt : Point2D)
    (h : ptsCur.Pairwise farApart) :
    ((acceptPoint missionId now ptsCur reg pt).1).Pairwise farApart := by
  unfold acceptPoint
  cases hc : is_too_close ptsCur pt.x pt.y with
  | true => simpa [hc] using h
  | false =>
      simp only [hc, Bool.false_eq_true, if_false]
      rw [List.pairwise_append]
      refine ⟨h, List.pairwise_singleton _ _, ?_⟩
      intro a ha b hb
      simp only [List.mem_singleton] at hb
      subst hb
      rw [is_too_close] at hc
      have := List.any_eq_false.mp hc a ha
      simp only [decide_eq_true_eq, not_lt] at this
      exact this

theorem explorationOnPoint_pairwise (basePositions : List Point2D)
    (missionId : ℕ) (now : ℚ) (ptsCur : List Point2D) (reg : Registry)
    (p : Point2D) (h : ptsCur.Pairwise farApart) :
    ((explorationOnPoint basePositions missionId now ptsCur reg p).1).Pairwise
      farApart :=
  acceptPoint_pairwise _ _ _ _ _ h

theorem acceptPoint_rejected (missionId : ℕ) (now : ℚ)
    (ptsCur : List Point2D) (reg : Registry) (pt : Point2D)
    (h : is_too_close ptsCur pt.x pt.y = true) :
    acceptPoint missionId now ptsCur reg pt = (ptsCur, reg) := by
  simp [acceptPoint, h]

theorem explorationOnPoint_rejected (basePositions : List Point2D)
    (missionId : ℕ) (now : ℚ) (ptsCur : List Point2D) (reg : Registry)
    (p : Point2D)
    (h : is_too_close ptsCur (absPoint basePositions missionId p).x
      (absPoint basePositions missionId p).y = true) :
    explorationOnPoint basePositions missionId now ptsCur reg p =
      (ptsCur, reg) :=
  acceptPoint_rejected _ _ _ _ _ h

/-- C7: For start point (0,0) and input points [(3,0),(1,0),(2,0)], the
nearest-neighbor planner's plan_path returns exactly
[(1,0),(2,0),(3,0)]. -/
theorem c7_nn_concrete_order :
    nnPlanPath ⟨0, 0⟩ [⟨3, 0⟩, ⟨1, 0⟩, ⟨2, 0⟩] = [⟨1, 0⟩, ⟨2, 0⟩, ⟨3, 0⟩] := by
  norm_num [nnPlanPath, nnLoop, argminFirst, minBy, dist2, List.erase,
    Point2D.mk.injEq, beq_iff_eq]
  exact fun h => List.noConfusion h

/-! ### Per-mission fold of the exploration callback -/

/-- The sequence of `_on_point` callbacks the exploration driver
processes during one mission: each event is a relative point together
with the `time()` value at its callback, folded over the current
mission list and the global registry. -/
def runMission (basePositions : List Point2D) (missionId : ℕ)
    (events : List (Point2D × ℚ)) (s : List Point2D × Registry) :
    List Point2D × Registry :=
  events.foldl
    (fun s e => explorationOnPoint basePositions missionId e.2 s.1 s.2 e.1) s

theorem runMission_pairwise (basePositions : List Point2D) (missionId : ℕ)
    (events : List (Point2D × ℚ)) :
    ∀ (s : List Point2D × Registry), s.1.Pairwise farApart →
      ((runMission basePositions missionId events s).1).Pairwise farApart := by
  induction events with
  | nil => intro s h; exact h
  | cons e rest ih =>
      intro s h
      exact ih _ (explorationOnPoint_pairwise _ _ _ _ _ _ h)

/-- C1: every pair of points retained in the same mission is at least
`DRONE_VISIBILITY` apart (stated on squared distances:
`dist ≥ v ↔ dist2 ≥ v ^ 2` for the nonnegative `v`), and a newly
detected point strictly closer than `DRONE_VISIBILITY` to any
already-accepted point of the current mission leaves both the mission
list and the registry unchanged — the earlier point wins. -/
theorem c1_mission_dedupe :
    (∀ (basePositions : List Point2D) (missionId : ℕ)
       (events : List (Point2D × ℚ)) (reg0 : Registry),
       ((runMission basePositions missionId events ([], reg0)).1).Pairwise
         farApart) ∧
    (∀ (basePositions : List Point2D) (missionId : ℕ) (now : ℚ)
       (ptsCur : List Point2D) (reg : Registry) (p q : Point2D),
       q ∈ ptsCur →
       dist2 q (absPoint basePositions missionId p) < DRONE_VISIBILITY ^ 2 →
       explorationOnPoint basePositions missionId now ptsCur reg p =
         (ptsCur, reg)) := by
  constructor
  · intro basePositions missionId events reg0
    exact runMission_pairwise _ _ _ _ (List.Pairwise.nil)
  · intro basePositions missionId now ptsCur reg p q hq hclose
    apply explorationOnPoint_rejected
    rw [is_too_close, List.any_eq_true]
    exact ⟨q, hq, by simpa using hclose⟩

/-- Witness for `c1_mission_dedupe` at the spec's Scenario 2 values:
with base (0,0), accepted point (0.2, 0) and incoming relative point
(0.5, 0) (distance 0.3 < 1), the callback changes nothing. -/
theorem c1_mission_dedupe_witness :
    (⟨0.2, 0⟩ : Point2D) ∈ [(⟨0.2, 0⟩ : Point2D)] ∧
    dist2 ⟨0.2, 0⟩ (absPoint [⟨0, 0⟩] 0 ⟨0.5, 0⟩) < DRONE_VISIBILITY ^ 2 ∧
    explorationOnPoint [⟨0, 0⟩] 0 7 [⟨0.2, 0⟩] [] ⟨0.5, 0⟩ =
      ([⟨0.2, 0⟩], []) := by
  have h1 : (⟨0.2, 0⟩ : Point2D) ∈ [(⟨0.2, 0⟩ : Point2D)] := by simp
  have h2 : dist2 ⟨0.2, 0⟩ (absPoint [⟨0, 0⟩] 0 ⟨0.5, 0⟩) <
      DRONE_VISIBILITY ^ 2 := by
    norm_num [dist2, absPoint, DRONE_VISIBILITY]
  exact ⟨h1, h2, c1_mission_dedupe.2 [⟨0, 0⟩] 0 7 [⟨0.2, 0⟩] [] ⟨0.5, 0⟩
    ⟨0.2, 0⟩ h1 h2⟩

/-- C3: the inspection `_on_point` callback mutates the registry entry
and the temperature map exactly when the point is registered under the
inspector's current mission, and is otherwise a no-op. -/
theorem c3_inspection_on_point :
    (∀ (missionId : ℕ) (temp : Option ℚ) (now : ℚ) (reg : Registry)
       (temps : List (Point2D × Option ℚ)) (p : Point2D)
       (b : Bool) (det ins : ℚ),
       dictGet? reg p = some (missionId, b, det, ins) →
       dictGet? (inspectionOnPoint missionId temp now reg temps p).1 p =
           some (missionId, true, det, now) ∧
         dictGet? (inspectionOnPoint missionId temp now reg temps p).2 p =
           some temp ∧
         (∀ q, q ≠ p →
           dictGet? (inspectionOnPoint missionId temp now reg temps p).1 q =
             dictGet? reg q)) ∧
    (∀ (missionId : ℕ) (temp : Option ℚ) (now : ℚ) (reg : Registry)
       (temps : List (Point2D × Option ℚ)) (p : Point2D),
       dictGet? reg p = none →
       inspectionOnPoint missionId temp now reg temps p = (reg, temps)) ∧
    (∀ (missionId : ℕ) (temp : Option ℚ) (now : ℚ) (reg : Registry)
       (temps : List (Point2D × Option ℚ)) (p : Point2D)
       (mid : ℕ) (b : Bool) (det ins : ℚ),
       dictGet? reg p = some (mid, b, det, ins) → mid ≠ missionId →
       inspectionOnPoint missionId temp now reg temps p = (reg, temps)) := by
  refine ⟨?_, ?_, ?_⟩
  · intro missionId temp now reg temps p b det ins hget
    rw [inspectionOnPoint, hget]
    simp only [if_pos rfl]
    exact ⟨dictGet?_dictInsert_self _ _ _, dictGet?_dictInsert_self _ _ _,
      fun q hq => dictGet?_dictInsert_ne _ _ _ _ hq⟩
  · intro missionId temp now reg temps p hget
    rw [inspectionOnPoint, hget]
  · intro missionId temp now reg temps p mid b det ins hget hne
    rw [inspectionOnPoint, hget]
    simp [hne]

/-- Witness for `c3_inspection_on_point`: a registered point of the
current mission 0 is marked inspected with its temperature recorded,
and a point of mission 1 is left untouched by mission 0. -/
theorem c3_inspection_on_point_witness :
    dictGet? [((⟨1, 2⟩ : Point2D), ((0, false, 5, 0) : PointRecord))] ⟨1, 2⟩ =
      some (0, false, 5, 0) ∧
    dictGet? (inspectionOnPoint 0 (some 20) 9
        [(⟨1, 2⟩, (0, false, 5, 0))] [] ⟨1, 2⟩).1 ⟨1, 2⟩ =
      some (0, true, 5, 9) ∧
    dictGet? [((⟨1, 2⟩ : Point2D), ((1, false, 5, 0) : PointRecord))] ⟨1, 2⟩ =
      some (1, false, 5, 0) ∧
    inspectionOnPoint 0 (some 20) 9 [(⟨1, 2⟩, (1, false, 5, 0))] [] ⟨1, 2⟩ =
      ([(⟨1, 2⟩, (1, false, 5, 0))], []) := by
  have hget : dictGet? [((⟨1, 2⟩ : Point2D), ((0, false, 5, 0) : PointRecord))]
      ⟨1, 2⟩ = some (0, false, 5, 0) := by decide
  have hget' : dictGet? [((⟨1, 2⟩ : Point2D), ((1, false, 5, 0) : PointRecord))]
      ⟨1, 2⟩ = some (1, false, 5, 0) := by decide
  exact ⟨hget,
    (c3_inspection_on_point.1 0 (some 20) 9 _ [] ⟨1, 2⟩ false 5 0 hget).1,
    hget',
    c3_inspection_on_point.2.2 0 (some 20) 9 _ [] ⟨1, 2⟩ 1 false 5 0 hget'
      (by decide)⟩

/-- C9: the registry holds at most one record per exact coordinate
(both callbacks preserve key uniqueness), and an accepted point whose
absolute coordinates already appear in the registry — in particular one
re-detected in a later mission — has its record overwritten with the
new mission id, a cleared inspected flag and fresh timestamps, all
other records being untouched. -/
theorem c9_registry_overwrite :
    (∀ (basePositions : List Point2D) (missionId : ℕ) (now : ℚ)
       (ptsCur : List Point2D) (reg : Registry) (p : Point2D),
       (dictKeys reg).Nodup →
       (dictKeys
         (explorationOnPoint basePositions missionId now ptsCur reg p).2).Nodup) ∧
    (∀ (missionId : ℕ) (temp : Option ℚ) (now : ℚ) (reg : Registry)
       (temps : List (Point2D × Option ℚ)) (p : Point2D),
       (dictKeys reg).Nodup →
       (dictKeys (inspectionOnPoint missionId temp now reg temps p).1).Nodup) ∧
    (∀ (basePositions : List Point2D) (missionId : ℕ) (now : ℚ)
       (ptsCur : List Point2D) (reg : Registry) (p : Point2D)
       (oldRec : PointRecord),
       dictGet? reg (absPoint basePositions missionId p) = some oldRec →
       is_too_close ptsCur (absPoint basePositions missionId p).x
         (absPoint basePositions missionId p).y = false →
       dictGet? (explorationOnPoint basePositions missionId now ptsCur reg p).2
           (absPoint basePositions missionId p) =
         some (missionId, false, now, 0) ∧
       (∀ q, q ≠ absPoint basePositions missionId p →
         dictGet?
           (explorationOnPoint basePositions missionId now ptsCur reg p).2 q =
           dictGet? reg q)) := by
  refine ⟨?_, ?_, ?_⟩
  · intro basePositions missionId now ptsCur reg p h
    rw [explorationOnPoint, acceptPoint]
    by_cases hc : is_too_close ptsCur (absPoint basePositions missionId p).x
        (absPoint basePositions missionId p).y = true
    · simpa [hc] using h
    · simp only [hc, if_false]
      exact dictKeys_dictInsert_nodup _ _ _ h
  · intro missionId temp now reg temps p h
    rw [inspectionOnPoint]
    cases hget : dictGet? reg p with
    | none => exact h
    | some rec =>
        obtain ⟨mid, b, det, ins⟩ := rec
        by_cases hm : mid = missionId
        · simp only [hm, if_pos rfl]
          exact dictKeys_dictInsert_nodup _ _ _ h
        · simp only [hm, if_false]
          exact h
  · intro basePositions missionId now ptsCur reg p oldRec hget hfar
    rw [explorationOnPoint, acceptPoint, hfar]
    simp only [Bool.false_eq_true, if_false]
    exact ⟨dictGet?_dictInsert_self _ _ _,
      fun q hq => dictGet?_dictInsert_ne _ _ _ _ hq⟩

/-- Witness for `c9_registry_overwrite`: point (5,5) detected in
mission 0 and re-detected (exactly) in mission 1 — the registry record
is overwritten with mission id 1 and fresh timestamps. -/
theorem c9_registry_overwrite_witness :
    (dictKeys [((⟨5, 5⟩ : Point2D), ((0, true, 3, 4) : PointRecord))]).Nodup ∧
    dictGet? [((⟨5, 5⟩ : Point2D), ((0, true, 3, 4) : PointRecord))]
      (absPoint [⟨0, 0⟩, ⟨0, 0⟩] 1 ⟨5, 5⟩) = some (0, true, 3, 4) ∧
    is_too_close [] (absPoint [⟨0, 0⟩, ⟨0, 0⟩] 1 ⟨5, 5⟩).x
      (absPoint [⟨0, 0⟩, ⟨0, 0⟩] 1 ⟨5, 5⟩).y = false ∧
    dictGet? (explorationOnPoint [⟨0, 0⟩, ⟨0, 0⟩] 1 8 []
        [(⟨5, 5⟩, (0, true, 3, 4))] ⟨5, 5⟩).2
      (absPoint [⟨0, 0⟩, ⟨0, 0⟩] 1 ⟨5, 5⟩) = some (1, false, 8, 0) := by
  have habs : absPoint [⟨0, 0⟩, ⟨0, 0⟩] 1 ⟨5, 5⟩ = (⟨5, 5⟩ : Point2D) := by
    norm_num [absPoint]
  have h1 : (dictKeys
      [((⟨5, 5⟩ : Point2D), ((0, true, 3, 4) : PointRecord))]).Nodup := by
    simp [dictKeys]
  have h2 : dictGet? [((⟨5, 5⟩ : Point2D), ((0, true, 3, 4) : PointRecord))]
      (absPoint [⟨0, 0⟩, ⟨0, 0⟩] 1 ⟨5, 5⟩) = some (0, true, 3, 4) := by
    rw [habs]; decide
  have h3 : is_too_close [] (absPoint [⟨0, 0⟩, ⟨0, 0⟩] 1 ⟨5, 5⟩).x
      (absPoint [⟨0, 0⟩, ⟨0, 0⟩] 1 ⟨5, 5⟩).y = false := by
    rw [habs]; decide
  exact ⟨h1, h2, h3,
    (c9_registry_overwrite.2.2 [⟨0, 0⟩, ⟨0, 0⟩] 1 8 []
      [(⟨5, 5⟩, (0, true, 3, 4))] ⟨5, 5⟩ (0, true, 3, 4) h2 h3).1⟩

/-! ### Telemetry ingest (`drone.drone_telemetry.DroneTelemetry`) -/

/-- `configuration.drone_telemetry.PACKET_ID_BATTERY = 0x01`. -/
def PACKET_ID_BATTERY : ℕ := 0x01

/-- `configuration.drone_telemetry.PACKET_ID_POSE = 0x02`. -/
def PACKET_ID_POSE : ℕ := 0x02

/-- `configuration.drone_telemetry.STRUCT_BATTERY.size` for
`struct.Struct("<f")`: one 32-bit float, 4 bytes. -/
def STRUCT_BATTERY_SIZE : ℕ := 4

/-- `configuration.drone_telemetry.STRUCT_POSE.size` for
`struct.Struct("<6f")`: six 32-bit floats, 24 bytes. -/
def STRUCT_POSE_SIZE : ℕ := 24

/-- The little-endian 32-bit word starting at byte offset `off` of a
payload (bytes are naturals `< 256`; the length is checked before any
read, so the `getD` default is never consulted).  The IEEE-754
interpretation of the word as a `float` is a bijection on 32-bit
patterns, so the snapshot stores the raw words: which bytes are decoded
and which fields change is exactly the source's behaviour. -/
def word32LE (payload : List ℕ) (off : ℕ) : ℕ :=
  payload.getD off 0 + 256 * payload.getD (off + 1) 0 +
    256 ^ 2 * payload.getD (off + 2) 0 + 256 ^ 3 * payload.getD (off + 3) 0

/-- `structures.structures.Pose` (via `Position`/`Orientation`), fields
as raw 32-bit words. -/
structure PoseW where
  x : ℕ
  y : ℕ
  z : ℕ
  roll : ℕ
  pitch : ℕ
  yaw : ℕ
deriving DecidableEq, Repr

/-- `structures.structures.TelemetryData`, battery voltage as a raw
32-bit word. -/
structure TelemetryDataW where
  pose : PoseW
  voltage : ℕ
deriving DecidableEq, Repr

/-- `DroneTelemetry._process_battery_packet`: drop a payload shorter
than `STRUCT_BATTERY.size`, otherwise replace the battery with the
float unpacked from the start of the payload, keeping the pose. -/
def processBatteryPacket (t : TelemetryDataW) (payload : List ℕ) :
    TelemetryDataW :=
  if payload.length < STRUCT_BATTERY_SIZE then t
  else { pose := t.pose, voltage := word32LE payload 0 }

/-- `DroneTelemetry._process_pose_packet`: drop a payload shorter than
`STRUCT_POSE.size`, otherwise replace the pose with the six floats
unpacked from the start of the payload, keeping the battery. -/
def processPosePacket (t : TelemetryDataW) (payload : List ℕ) :
    TelemetryDataW :=
  if payload.length < STRUCT_POSE_SIZE then t
  else
    { pose :=
        { x := word32LE payload 0, y := word32LE payload 4,
          z := word32LE payload 8, roll := word32LE payload 12,
          pitch := word32LE payload 16, yaw := word32LE payload 20 },
      voltage := t.voltage }

/-- One iteration of `DroneTelemetry._listen` on a received packet:
skip empty packets, split `packet_id = packet[0]` from
`payload = packet[1:]`, and dispatch on the id (ids other than battery
and pose fall through with no update). -/
def processPacket (t : TelemetryDataW) (packet : List ℕ) : TelemetryDataW :=
  match packet with
  | [] => t
  | packetId :: payload =>
      if packetId = PACKET_ID_BATTERY then processBatteryPacket t payload
      else if packetId = PACKET_ID_POSE then processPosePacket t payload
      else t

/-- C8: unknown packet ids and short payloads leave the telemetry
snapshot unchanged; a well-formed battery packet replaces only the
battery voltage with the little-endian 32-bit word read from the start
of the payload, leaving the pose unchanged. -/
theorem c8_telemetry_packet :
    (∀ (t : TelemetryDataW) (packetId : ℕ) (payload : List ℕ),
       packetId ≠ PACKET_ID_BATTERY → packetId ≠ PACKET_ID_POSE →
       processPacket t (packetId :: payload) = t) ∧
    (∀ t : TelemetryDataW, processPacket t [] = t) ∧
    (∀ (t : TelemetryDataW) (payload : List ℕ),
       payload.length < STRUCT_BATTERY_SIZE →
       processPacket t (PACKET_ID_BATTERY :: payload) = t) ∧
    (∀ (t : TelemetryDataW) (payload : List ℕ),
       payload.length < STRUCT_POSE_SIZE →
       processPacket t (PACKET_ID_POSE :: payload) = t) ∧
    (∀ (t : TelemetryDataW) (payload : List ℕ),
       STRUCT_BATTERY_SIZE ≤ payload.length →
       processPacket t (PACKET_ID_BATTERY :: payload) =
         { pose := t.pose, voltage := word32LE payload 0 }) := by
  refine ⟨?_, ?_, ?_, ?_, ?_⟩
  · intro t packetId payload h1 h2
    simp [processPacket, h1, h2]
  · intro t
    rfl
  · intro t payload h
    simp [processPacket, processBatteryPacket, PACKET_ID_BATTERY,
      PACKET_ID_POSE, h]
  · intro t payload h
    simp [processPacket, processPosePacket, PACKET_ID_BATTERY,
      PACKET_ID_POSE, h]
  · intro t payload h
    simp [processPacket, processBatteryPacket, PACKET_ID_BATTERY,
      PACKET_ID_POSE, Nat.not_lt.mpr h]

/-- Witness for `c8_telemetry_packet` on concrete packets: id `0x03` is
dropped, a 3-byte battery payload is dropped, a 23-byte pose payload is
dropped, and battery packet `[0x01, 1, 2, 3, 4]` sets the voltage word
to `0x04030201` keeping the pose. -/
theorem c8_telemetry_packet_witness :
    (3 ≠ PACKET_ID_BATTERY ∧ 3 ≠ PACKET_ID_POSE ∧
      processPacket ⟨⟨9, 9, 9, 9, 9, 9⟩, 7⟩ [3, 1, 2] =
        ⟨⟨9, 9, 9, 9, 9, 9⟩, 7⟩) ∧
    ([(1 : ℕ), 2, 3].length < STRUCT_BATTERY_SIZE ∧
      processPacket ⟨⟨9, 9, 9, 9, 9, 9⟩, 7⟩ (PACKET_ID_BATTERY :: [1, 2, 3]) =
        ⟨⟨9, 9, 9, 9, 9, 9⟩, 7⟩) ∧
    (STRUCT_BATTERY_SIZE ≤ [(1 : ℕ), 2, 3, 4].length ∧
      processPacket ⟨⟨9, 9, 9, 9, 9, 9⟩, 7⟩ (PACKET_ID_BATTERY :: [1, 2, 3, 4]) =
        ⟨⟨9, 9, 9, 9, 9, 9⟩, word32LE [1, 2, 3, 4] 0⟩) := by
  refine ⟨⟨by decide, by decide, ?_⟩, ⟨by decide, ?_⟩, ⟨by decide, ?_⟩⟩
  · exact c8_telemetry_packet.1 ⟨⟨9, 9, 9, 9, 9, 9⟩, 7⟩ 3 [1, 2]
      (by decide) (by decide)
  · exact c8_telemetry_packet.2.2.1 ⟨⟨9, 9, 9, 9, 9, 9⟩, 7⟩ [1, 2, 3]
      (by decide)
  · exact c8_telemetry_packet.2.2.2.2 ⟨⟨9, 9, 9, 9, 9, 9⟩, 7⟩ [1, 2, 3, 4]
      (by decide)

/-! ### Python list objects: a heap model for the mutation claim

Python lists are mutable objects reached through references; to state
that `plan_path` does not mutate the caller's `points` list the
embedding makes the store explicit: a heap of list cells addressed by
natural numbers.  `points.copy()` allocates a fresh cell,
`remaining.remove(x)` writes the erased list back into the cell it was
called on, and the caller's list is whatever its cell holds after the
call. -/

/-- A heap of Python list-of-point objects. -/
structure PyHeap where
  cells : List (List Point2D)
deriving Repr

/-- Dereference a list object (valid references only are ever used). -/
def readCell (h : PyHeap) (r : ℕ) : List Point2D :=
  h.cells.getD r []

/-- In-place mutation of the list object behind `r`. -/
def writeCell (h : PyHeap) (r : ℕ) (l : List Point2D) : PyHeap :=
  ⟨h.cells.set r l⟩

/-- `list.copy()` / fresh list allocation: a new cell at a new address. -/
def allocCell (h : PyHeap) (l : List Point2D) : PyHeap × ℕ :=
  (⟨h.cells ++ [l]⟩, h.cells.length)

theorem readCell_writeCell_self (h : PyHeap) (r : ℕ) (l : List Point2D)
    (hr : r < h.cells.length) : readCell (writeCell h r l) r = l := by
  simp [readCell, writeCell, List.getD_eq_getElem?_getD,
    List.getElem?_set_eq_of_lt _ hr]

theorem readCell_writeCell_ne (h : PyHeap) (r r' : ℕ) (l : List Point2D)
    (hne : r ≠ r') : readCell (writeCell h r l) r' = readCell h r' := by
  simp [readCell, writeCell, List.getD_eq_getElem?_getD,
    List.getElem?_set_ne hne]

theorem writeCell_length (h : PyHeap) (r : ℕ) (l : List Point2D) :
    (writeCell h r l).cells.length = h.cells.length := by
  simp [writeCell]

theorem readCell_allocCell_new (h : PyHeap) (l : List Point2D) :
    readCell (allocCell h l).1 (allocCell h l).2 = l := by
  simp [readCell, allocCell, List.getD_eq_getElem?_getD,
    List.getElem?_append_right (le_refl h.cells.length)]

theorem readCell_allocCell_old (h : PyHeap) (l : List Point2D) (r : ℕ)
    (hr : r < h.cells.length) :
    readCell (allocCell h l).1 r = readCell h r := by
  simp [readCell, allocCell, List.getD_eq_getElem?_getD,
    List.getElem?_append_left hr]

/-- The `while remaining:` loop of `NearestNeighborPlanner.plan_path`
acting on the store: `remaining` is the list object behind `remRef`,
`remaining.remove(next_point)` writes back into that cell, and `path`
is the accumulating local list value. -/
def nnLoopImp : ℕ → PyHeap → Point2D → ℕ → List Point2D →
    PyHeap × List Point2D
  | 0, h, _, _, path => (h, path)
  | fuel + 1, h, current, remRef, path =>
      match argminFirst (fun p => dist2 current p) (readCell h remRef) with
      | none => (h, path)
      | some nextPoint =>
          nnLoopImp fuel
            (writeCell h remRef ((readCell h remRef).erase nextPoint))
            nextPoint remRef (path ++ [nextPoint])

/-- `NearestNeighborPlanner.plan_path` on the store: the caller passes
a reference to its `points` list; the planner reads it, copies it into
a fresh cell (`remaining = points.copy()`) and runs the loop, which
mutates only the copy. -/
def nnPlanPathImp (h : PyHeap) (startPoint : Point2D) (pointsRef : ℕ) :
    PyHeap × List Point2D :=
  if readCell h pointsRef = [] then (h, [])
  else
    let alloc := allocCell h (readCell h pointsRef)
    nnLoopImp (readCell h pointsRef).length alloc.1 startPoint alloc.2 []

/-- `ILPPlanner.plan_path` on the store: `[start_point] + points`
builds a fresh list value, and the solver result is a pure function of
it (`solvedOrder` abstracts `_solve_gurobi` plus the trailing slice);
no list object is ever written. -/
def ilpPlanPathImp (solvedOrder : List Point2D → List Point2D)
    (h : PyHeap) (startPoint : Point2D) (pointsRef : ℕ) :
    PyHeap × List Point2D :=
  if readCell h pointsRef = [] then (h, [])
  else (h, solvedOrder (startPoint :: readCell h pointsRef))

theorem nnLoopImp_frame :
    ∀ (fuel : ℕ) (h : PyHeap) (current : Point2D) (remRef r : ℕ)
      (path : List Point2D), r ≠ remRef →
      readCell (nnLoopImp fuel h current remRef path).1 r = readCell h r := by
  intro fuel
  induction fuel with
  | zero => intro h current remRef r path _; rfl
  | succ n ih =>
      intro h current remRef r path hne
      rw [nnLoopImp]
      cases argminFirst (fun p => dist2 current p) (readCell h remRef) with
      | none => rfl
      | some nextPoint =>
          rw [ih _ _ _ _ _ hne]
          exact readCell_writeCell_ne _ _ _ _ (Ne.symm hne)

theorem nnLoopImp_result :
    ∀ (fuel : ℕ) (h : PyHeap) (current : Point2D) (remRef : ℕ)
      (path : List Point2D), remRef < h.cells.length →
      (nnLoopImp fuel h current remRef path).2 =
        path ++ nnLoop fuel current (readCell h remRef) := by
  intro fuel
  induction fuel with
  | zero => intro h current remRef path _; simp [nnLoopImp, nnLoop]
  | succ n ih =>
      intro h current remRef path hr
      rw [nnLoopImp, nnLoop]
      cases argminFirst (fun p => dist2 current p) (readCell h remRef) with
      | none => simp
      | some nextPoint =>
          rw [ih _ _ _ _ (by simpa [writeCell_length] using hr),
            readCell_writeCell_self _ _ _ hr]
          simp

/-- C10: `plan_path` never mutates its input: for both planners the
caller's `points` cell holds the same list after the call, and the
nearest-neighbor result agrees with the pure value-level planner on
the original contents (it works on an internal copy only). -/
theorem c10_plan_path_no_mutation :
    (∀ (h : PyHeap) (startPoint : Point2D) (pointsRef : ℕ),
       pointsRef < h.cells.length →
       readCell (nnPlanPathImp h startPoint pointsRef).1 pointsRef =
           readCell h pointsRef ∧
         (nnPlanPathImp h startPoint pointsRef).2 =
           nnPlanPath startPoint (readCell h pointsRef)) ∧
    (∀ (solvedOrder : List Point2D → List Point2D) (h : PyHeap)
       (startPoint : Point2D) (pointsRef : ℕ),
       readCell (ilpPlanPathImp solvedOrder h startPoint pointsRef).1
         pointsRef = readCell h pointsRef) := by
  constructor
  · intro h startPoint pointsRef hr
    rw [nnPlanPathImp, nnPlanPath]
    by_cases he : readCell h pointsRef = []
    · simp [he]
    · simp only [he, if_false]
      constructor
      · have h1 := nnLoopImp_frame (readCell h pointsRef).length
          (allocCell h (readCell h pointsRef)).1 startPoint
          (allocCell h (readCell h pointsRef)).2 pointsRef []
          (by simpa [allocCell] using Nat.ne_of_lt hr)
        rw [h1]
        exact readCell_allocCell_old _ _ _ hr
      · have h2 := nnLoopImp_result (readCell h pointsRef).length
          (allocCell h (readCell h pointsRef)).1 startPoint
          (allocCell h (readCell h pointsRef)).2 []
          (by simp [allocCell])
        rw [h2, readCell_allocCell_new]
        simp
  · intro solvedOrder h startPoint pointsRef
    rw [ilpPlanPathImp]
    by_cases he : readCell h pointsRef = [] <;> simp [he]

/-- Witness for `c10_plan_path_no_mutation`: a concrete two-cell heap;
planning over the list behind reference 0 leaves it intact. -/
theorem c10_plan_path_no_mutation_witness :
    (0 : ℕ) < (PyHeap.mk [[⟨3, 0⟩, ⟨1, 0⟩], [⟨7, 7⟩]]).cells.length ∧
    readCell (nnPlanPathImp ⟨[[⟨3, 0⟩, ⟨1, 0⟩], [⟨7, 7⟩]]⟩ ⟨0, 0⟩ 0).1 0 =
      readCell ⟨[[⟨3, 0⟩, ⟨1, 0⟩], [⟨7, 7⟩]]⟩ 0 := by
  refine ⟨by decide, ?_⟩
  exact (c10_plan_path_no_mutation.1 ⟨[[⟨3, 0⟩, ⟨1, 0⟩], [⟨7, 7⟩]]⟩ ⟨0, 0⟩ 0
    (by decide)).1

/-! ### The exact ILP planner (`planners.ilp_planner.ILPPlanner`)

`_solve_gurobi` builds one binary variable per unordered pair `(i, j)`,
`i < j`, of node indices (node 0 is the start point), with the
constraints `deg(0) == 1`, `deg(i) <= 2` for `i ≠ 0` and
`total edges == n - 1`, and minimizes the total Euclidean length of
the selected edges; the external solver returns an optimal feasible
selection.  The embedding quantifies over that selection: a bitmask
over the edge list in the source's construction order. -/

/-- The edge/variable list of `_solve_gurobi`, in construction order:
`for i in range(n) for j in range(i + 1, n)`. -/
def ilpEdges (n : ℕ) : List (ℕ × ℕ) :=
  (List.range n).flatMap
    (fun i => ((List.range n).filter (fun j => i < j)).map (fun j => (i, j)))

/-- Select the elements of `l` whose position (counted from `k`) has
its bit set in the mask `m` — an assignment of the binary variables. -/
def maskFilter {α : Type} (m : ℕ) : List α → ℕ → List α
  | [], _ => []
  | a :: rest, k =>
      if m.testBit k then a :: maskFilter m rest (k + 1)
      else maskFilter m rest (k + 1)

/-- The edges selected by variable assignment `m` (`var.x > 0.5` in the
source, read back in the variable dictionary's construction order). -/
def selEdges (n m : ℕ) : List (ℕ × ℕ) := maskFilter m (ilpEdges n) 0

/-- The degree of node `i` under a selected edge set, as summed by the
`deg_expr` constraint of `_solve_gurobi`. -/
def degOf (edges : List (ℕ × ℕ)) (i : ℕ) : ℕ :=
  (edges.filter (fun e => e.1 == i || e.2 == i)).length

/-- The feasibility predicate of the source's ILP model: node 0 has
degree exactly 1, every other node degree at most 2, and exactly
`n - 1` edges are selected.  (There is no subtour-elimination
constraint in the source.) -/
def ilpFeasible (n m : ℕ) : Bool :=
  (selEdges n m).length == n - 1 &&
  degOf (selEdges n m) 0 == 1 &&
  ((List.range n).all (fun i => i == 0 || degOf (selEdges n m) i ≤ 2))

/-- `_extract_path`'s adjacency construction:
`for i, j in edges: adj[i].append(j); adj[j].append(i)`, read back for
one node `v`. -/
def adjOf (edges : List (ℕ × ℕ)) (v : ℕ) : List ℕ :=
  edges.foldl (fun acc e =>
    let acc1 := if e.1 = v then acc ++ [e.2] else acc
    if e.2 = v then acc1 ++ [e.1] else acc1) []

/-- The `while True:` walk of `_extract_path`: from `cur`, step to the
first neighbour different from `prev`, stop when there is none.  Fuel
bounds the walk; on every selection the model can return (degree of
node 0 equal to 1) the walk is a simple path from node 0 and stops
well within `edges.length + 1` steps. -/
def extractLoop : ℕ → List (ℕ × ℕ) → Option ℕ → ℕ → List ℕ → List ℕ
  | 0, _, _, _, path => path
  | fuel + 1, edges, prevV, cur, path =>
      match (adjOf edges cur).find? (fun v => decide (some v ≠ prevV)) with
      | none => path
      | some nxt => extractLoop fuel edges (some cur) nxt (path ++ [nxt])

/-- `ILPPlanner._extract_path`: the walk from node 0 (`path = [0]`,
`prev = -1` modelled as `none`). -/
def extract_path (edges : List (ℕ × ℕ)) : List ℕ :=
  0 :: extractLoop (edges.length + 1) edges none 0 []

/-- `ILPPlanner.plan_path`, given the solver's selected edges `sol`:
empty input short-circuits; otherwise `all_points = [start] + points`,
the path indices are mapped back to points
(`ordered_points = [points[i] for i in path]`) and the start point is
sliced off (`ordered_points[1:] if ordered_points else []`). -/
def ilpPlanPath (sol : List (ℕ × ℕ)) (startPoint : Point2D)
    (points : List Point2D) : List Point2D :=
  if points = [] then []
  else
    let allPoints := startPoint :: points
    let ordered := (extract_path sol).map (fun i => allPoints.getD i ⟨0, 0⟩)
    if ordered = [] then [] else ordered.drop 1

/-- The true Euclidean distance used in the ILP objective
(`_euclidean_distance`), over the reals. -/
noncomputable def euclidDist (p q : Point2D) : ℝ :=
  Real.sqrt ((dist2 p q : ℚ) : ℝ)

/-- The ILP objective: total Euclidean length of the selected edges,
node indices resolved against `all_points` (start point at index 0). -/
noncomputable def tourCost (allPoints : List Point2D)
    (edges : List (ℕ × ℕ)) : ℝ :=
  (edges.map (fun e =>
    euclidDist (allPoints.getD e.1 ⟨0, 0⟩) (allPoints.getD e.2 ⟨0, 0⟩))).sum

/-- Start point of the failing ILP instance. -/
def ilpStart : Point2D := ⟨0, 0⟩

/-- Points of the failing ILP instance: one point near the start and a
far-away tight cluster of three. -/
def ilpPts : List Point2D := [⟨1, 0⟩, ⟨100, 0⟩, ⟨101, 0⟩, ⟨102, 0⟩]

/-- `[start_point] + points` of the failing instance. -/
def ilpAllPts : List Point2D := ilpStart :: ilpPts

/-- Integer edge lengths of the failing instance (all its points lie
on the x-axis, so every Euclidean edge length is a natural number), in
the order of `ilpEdges 5`. -/
def edgeCostsN : List ℕ := [1, 100, 101, 102, 99, 100, 101, 1, 2, 1]

/-- The integer total cost of a selection of the failing instance. -/
def costN (m : ℕ) : ℕ := (maskFilter m edgeCostsN 0).sum

theorem euclidDist_eval (p q : Point2D) (c : ℝ) (hc : 0 ≤ c)
    (h : ((dist2 p q : ℚ) : ℝ) = c ^ 2) : euclidDist p q = c := by
  rw [euclidDist, h, Real.sqrt_sq hc]

theorem tourCost_maskFilter (allPoints : List Point2D) :
    ∀ (es : List (ℕ × ℕ)) (cs : List ℕ) (m k : ℕ),
      List.Forall₂ (fun (e : ℕ × ℕ) (c : ℕ) =>
        euclidDist (allPoints.getD e.1 ⟨0, 0⟩) (allPoints.getD e.2 ⟨0, 0⟩) =
          (c : ℝ)) es cs →
      tourCost allPoints (maskFilter m es k) =
        ((maskFilter m cs k).sum : ℝ) := by
  intro es
  induction es with
  | nil =>
      intro cs m k hall
      cases hall
      simp [tourCost, maskFilter]
  | cons e es ih =>
      intro cs m k hall
      cases hall with
      | cons he htail =>
          by_cases hb : m.testBit k
          · have hrec := ih _ m (k + 1) htail
            simp only [maskFilter, hb, if_true, List.sum_cons, Nat.cast_add]
            simp only [tourCost, List.map_cons, List.sum_cons] at hrec ⊢
            rw [he, hrec]
          · simp only [maskFilter, hb, if_false]
            exact ih _ m (k + 1) htail

theorem ilpEdges_five : ilpEdges 5 =
    [(0, 1), (0, 2), (0, 3), (0, 4), (1, 2), (1, 3), (1, 4), (2, 3),
     (2, 4), (3, 4)] := by decide

/-- On the failing instance the real ILP objective of any selection is
the cast of its integer cost. -/
theorem tourCost_eq_costN (m : ℕ) :
    tourCost ilpAllPts (selEdges 5 m) = (costN m : ℝ) := by
  rw [selEdges, costN, ilpEdges_five]
  apply tourCost_maskFilter
  refine .cons ?_ (.cons ?_ (.cons ?_ (.cons ?_ (.cons ?_ (.cons ?_
    (.cons ?_ (.cons ?_ (.cons ?_ (.cons ?_ .nil))))))))) <;>
    · apply euclidDist_eval _ _ _ (by norm_num)
      push_cast
      norm_num [ilpAllPts, ilpStart, ilpPts, dist2]

set_option maxRecDepth 10000 in
/-- Exhaustive check over all 1024 variable assignments of the failing
instance: every feasible selection costs at least 5, and the only
feasible selection of cost at most 5 is mask 897, i.e. the edge set
`\x7b(0,1), (2,3), (2,4), (3,4)\x7d` — one spur plus a disconnected
3-cycle. -/
theorem ilpFeasible_cost_bound :
    ∀ m < 1024, ilpFeasible 5 m = true →
      5 ≤ costN m ∧ (costN m ≤ 5 → m = 897) := by decide

set_option maxRecDepth 10000 in
theorem ilp_optimal_unique (m : ℕ) (hm : m < 1024)
    (hfeas : ilpFeasible 5 m = true)
    (hopt : ∀ m2 : ℕ, m2 < 1024 → ilpFeasible 5 m2 = true →
      tourCost ilpAllPts (selEdges 5 m) ≤ tourCost ilpAllPts (selEdges 5 m2)) :
    m = 897 := by
  have h897 := hopt 897 (by norm_num) (by decide)
  rw [tourCost_eq_costN, tourCost_eq_costN] at h897
  have hle : costN m ≤ costN 897 := by exact_mod_cast h897
  have h5 : costN 897 = 5 := by decide
  exact (ilpFeasible_cost_bound m hm hfeas).2 (by omega)

set_option maxRecDepth 4000 in
/-- Evaluating the source's path extraction on the optimal selection:
the walk from node 0 reaches only node 1, and `plan_path` returns the
single point (1,0). -/
theorem ilp_897_result :
    ilpPlanPath (selEdges 5 897) ilpStart ilpPts = [⟨1, 0⟩] := by decide

/-- C2: the nearest-neighbor planner does return a permutation of its
input (same multiset, same length, empty in — empty out, and no added
start point); the exact ILP planner does not: on the failing instance
(start (0,0), points (1,0), (100,0), (101,0), (102,0)) every optimal
feasible selection of its model — the model has no subtour-elimination
constraints — produces a path that drops three of the four points, so
its output is not a permutation of the input. -/
theorem c2_plan_path_permutation :
    (∀ (startPoint : Point2D) (points : List Point2D),
       (nnPlanPath startPoint points).Perm points ∧
       (nnPlanPath startPoint points).length = points.length ∧
       (points = [] → nnPlanPath startPoint points = []) ∧
       (startPoint ∉ points → startPoint ∉ nnPlanPath startPoint points)) ∧
    (∀ m : ℕ, m < 1024 → ilpFeasible 5 m = true →
       (∀ m2 : ℕ, m2 < 1024 → ilpFeasible 5 m2 = true →
         tourCost ilpAllPts (selEdges 5 m) ≤
           tourCost ilpAllPts (selEdges 5 m2)) →
       ¬ (ilpPlanPath (selEdges 5 m) ilpStart ilpPts).Perm ilpPts) := by
  constructor
  · intro startPoint points
    have hperm := nnPlanPath_perm startPoint points
    exact ⟨hperm, hperm.length_eq, fun he => by simp [nnPlanPath, he],
      fun hn hmem => hn (hperm.mem_iff.mp hmem)⟩
  · intro m hm hfeas hopt hperm
    rw [ilp_optimal_unique m hm hfeas hopt, ilp_897_result] at hperm
    have := hperm.length_eq
    simp [ilpPts] at this

/-- Witness for `c2_plan_path_permutation`: the nearest-neighbor part
at start (5,5) and points [(1,0)], and the ILP part at the optimal
selection 897 of the failing instance. -/
theorem c2_plan_path_permutation_witness :
    ((⟨5, 5⟩ : Point2D) ∉ [(⟨1, 0⟩ : Point2D)] ∧
      (⟨5, 5⟩ : Point2D) ∉ nnPlanPath ⟨5, 5⟩ [⟨1, 0⟩]) ∧
    (897 < 1024 ∧ ilpFeasible 5 897 = true ∧
      ¬ (ilpPlanPath (selEdges 5 897) ilpStart ilpPts).Perm ilpPts) := by
  have hmem : (⟨5, 5⟩ : Point2D) ∉ [(⟨1, 0⟩ : Point2D)] := by decide
  have hopt : ∀ m2 : ℕ, m2 < 1024 → ilpFeasible 5 m2 = true →
      tourCost ilpAllPts (selEdges 5 897) ≤
        tourCost ilpAllPts (selEdges 5 m2) := by
    intro m2 hm2 hf2
    rw [tourCost_eq_costN, tourCost_eq_costN]
    have h1 := (ilpFeasible_cost_bound m2 hm2 hf2).1
    have h5 : costN 897 = 5 := by decide
    exact_mod_cast (by omega : costN 897 ≤ costN m2)
  exact ⟨⟨hmem, (c2_plan_path_permutation.1 ⟨5, 5⟩ [⟨1, 0⟩]).2.2.2 hmem⟩,
    ⟨by norm_num, by decide,
      c2_plan_path_permutation.2 897 (by norm_num) (by decide) hopt⟩⟩

/-! ### The operation as an interleaving transition system

`OperationController` wires two driver threads
(`ExplorationController.run`, `InspectionController.run`), the two
robot callback threads, three `threading.Event` flags
(`OperationEvents`), a FIFO `Queue` and the shared registry.  Each
lock-protected region (or single atomic flag/queue operation) of the
source is one step; a scheduler chooses an arbitrary label sequence,
and a step whose thread is blocked (event unset, queue empty, program
counter elsewhere) is disabled.  Ghost fields (counters of puts, gets,
phases, routines, callback executions and the two `last…Done` flags)
record history without influencing any behaviour; `clock` is a step
counter standing in for `time()`. -/

/-- `operation.operation_status.OperationStatus`. -/
inductive OpStatus
  | NOT_STARTED
  | RUNNING
  | FINISHED
deriving DecidableEq, Repr

/-- Program counter of `ExplorationController.run`. -/
inductive EPC
  | atCheck
  | atWaitStart
  | atWaitStop
  | atExit
  | atCallback
  | eDone
deriving DecidableEq, Repr

/-- Program counter of `InspectionController.run`. -/
inductive IPC
  | atCheck
  | atGet
  | atWaitDone
  | atExit
  | atCallback
  | iDone
deriving DecidableEq, Repr

/-- Fixed collaborators of one operation: the base positions loaded at
construction, the path planner strategy, the inspector's position fed
to `plan_path`, and its telemetry temperature reading. -/
structure OpParams where
  basePositions : List Point2D
  planner : Point2D → List Point2D → List Point2D
  inspectorPos : Point2D
  inspectorTemp : Option ℚ

/-- The complete shared-memory state of the operation. -/
structure OpCfg where
  opStarted : Bool
  opStatus : OpStatus
  startTime : Option ℕ
  finishedTime : Option ℕ
  startNextExploration : Bool
  stopExploration : Bool
  inspectorDone : Bool
  queue : List (List Point2D)
  allPoints : Registry
  temperatures : List (Point2D × Option ℚ)
  ePC : EPC
  eMissionId : ℕ
  eStatus : OpStatus
  ePointsCur : List Point2D
  eTimes : List (ℕ × ℕ)
  ePhaseStart : ℕ
  eActive : Bool
  iPC : IPC
  iMissionId : ℕ
  iStatus : OpStatus
  iTimes : List (ℕ × ℕ)
  iStartTime : ℕ
  iActive : Bool
  iRemaining : List Point2D
  puts : ℕ
  gets : ℕ
  phasesStarted : ℕ
  phasesDone : ℕ
  routinesDone : ℕ
  starts : ℕ
  finishCount : ℕ
  lastPhaseDone : Bool
  lastRoutineDone : Bool
  clock : ℕ
deriving Repr

/-- Scheduler labels: operator actions, the two driver loops, and the
two robots' callback deliveries. -/
inductive Label
  | startOp
  | nextMission
  | stopInspection
  | eCheck
  | eStartPhase
  | ePoint (p : Point2D)
  | eStopPhase
  | eExit
  | eFinishAll
  | iCheck
  | iGet
  | iPoint
  | iFinish
  | iAwaitDone
  | iExit
  | iFinishAll

/-- The guard of `_on_all_missions_finished` (all comparisons are the
source's `current_mission_id == n_missions - 1` over Python integers,
written `id + 1 = n` to be exact also for `n = 0`). -/
def allMissionsDone (n : ℕ) (c : OpCfg) : Prop :=
  c.eMissionId + 1 = n ∧ c.eStatus = .FINISHED ∧
    c.iMissionId + 1 = n ∧ c.iStatus = .FINISHED

instance (n : ℕ) (c : OpCfg) : Decidable (allMissionsDone n c) := by
  unfold allMissionsDone; infer_instance

/-- The guarded body of `OperationController._on_all_missions_finished`
(runs under the controller's lock on the calling driver's thread). -/
def finishBody (n : ℕ) (c : OpCfg) : OpCfg :=
  if allMissionsDone n c then
    { c with finishedTime := some c.clock, opStatus := .FINISHED,
             finishCount := c.finishCount + 1 }
  else c

/-- One transition of the operation: `none` when the labelled thread is
blocked or not at that statement.  Every step advances `clock`. -/
def opStep (P : OpParams) (c : OpCfg) : Label → Option OpCfg
  | .startOp =>
      -- OperationController.start: stamp, set RUNNING, launch both
      -- threads, trigger the first exploration.
      if c.opStarted then none
      else some { c with
        opStarted := true, opStatus := .RUNNING,
        startTime := some c.clock,
        startNextExploration := true, starts := c.starts + 1,
        clock := c.clock + 1 }
  | .nextMission =>
      -- ExplorationController.start_next_exploration (under the
      -- explorer lock): skip when out of missions or still RUNNING,
      -- otherwise pre-increment the mission id and set the event.
      if c.eMissionId + 1 ≥ P.basePositions.length then
        some { c with clock := c.clock + 1 }
      else if c.eStatus = .RUNNING then some { c with clock := c.clock + 1 }
      else some { c with
        eMissionId := c.eMissionId + 1,
        startNextExploration := true, starts := c.starts + 1,
        clock := c.clock + 1 }
  | .stopInspection =>
      -- OperationController.stop_inspection:
      -- events.trigger_stop_exploration.
      some { c with stopExploration := true, clock := c.clock + 1 }
  | .eCheck =>
      -- The explorer loop condition
      -- `while current_mission_id < n_missions - 1`.
      if c.opStarted ∧ c.ePC = .atCheck then
        some { c with
          ePC := if c.eMissionId + 1 < P.basePositions.length then
            .atWaitStart else .atExit,
          clock := c.clock + 1 }
      else none
  | .eStartPhase =>
      -- wait_for_start_next_exploration / clear / status=RUNNING /
      -- start_time / robot.start_routine.
      if c.ePC = .atWaitStart ∧ c.startNextExploration then
        some { c with
          startNextExploration := false, eStatus := .RUNNING,
          ePhaseStart := c.clock, eActive := true,
          phasesStarted := c.phasesStarted + 1, ePC := .atWaitStop,
          clock := c.clock + 1 }
      else none
  | .ePoint p =>
      -- ExplorationController._on_point on the explorer robot's
      -- thread, while its routine runs.
      if c.eActive then
        some { c with
          ePointsCur := (explorationOnPoint P.basePositions c.eMissionId
            (c.clock : ℚ) c.ePointsCur c.allPoints p).1,
          allPoints := (explorationOnPoint P.basePositions c.eMissionId
            (c.clock : ℚ) c.ePointsCur c.allPoints p).2,
          clock := c.clock + 1 }
      else none
  | .eStopPhase =>
      -- wait_for_stop_exploration / clear / robot.stop_routine /
      -- finish_time / lock: status=FINISHED, record times, push the
      -- mission list, clear it.
      if c.ePC = .atWaitStop ∧ c.stopExploration then
        some { c with
          stopExploration := false, eActive := false,
          eStatus := .FINISHED,
          eTimes := c.eTimes ++ [(c.ePhaseStart, c.clock)],
          queue := c.queue ++ [c.ePointsCur], ePointsCur := [],
          puts := c.puts + 1, phasesDone := c.phasesDone + 1,
          lastPhaseDone := c.lastPhaseDone ||
            decide (c.eMissionId + 1 = P.basePositions.length),
          ePC := .atCheck, clock := c.clock + 1 }
      else none
  | .eExit =>
      -- After the loop: status=FINISHED.
      if c.ePC = .atExit then
        some { c with
          eStatus := .FINISHED, ePC := .atCallback,
          clock := c.clock + 1 }
      else none
  | .eFinishAll =>
      -- The explorer's _callback_onFinishAll invocation.
      if c.ePC = .atCallback then
        some { finishBody P.basePositions.length c with
          ePC := .eDone, clock := c.clock + 1 }
      else none
  | .iCheck =>
      -- The inspector loop condition
      -- `while current_mission_id < n_missions - 1`.
      if c.opStarted ∧ c.iPC = .atCheck then
        some { c with
          iPC := if c.iMissionId + 1 < P.basePositions.length then
            .atGet else .atExit,
          clock := c.clock + 1 }
      else none
  | .iGet =>
      -- points_queue.get() (blocking on an empty queue) / lock: maybe
      -- increment the mission id, status=RUNNING, start time /
      -- plan_path / robot.start_routine(path).
      if c.queue ≠ [] ∧ c.iPC = .atGet then
        some { c with
          queue := c.queue.tail, gets := c.gets + 1,
          iMissionId :=
            if c.iStatus ≠ .NOT_STARTED then c.iMissionId + 1
            else c.iMissionId,
          iStatus := .RUNNING, iStartTime := c.clock,
          iRemaining := P.planner P.inspectorPos (c.queue.headD []),
          iActive := true, iPC := .atWaitDone,
          clock := c.clock + 1 }
      else none
  | .iPoint =>
      -- InspectionController._on_point on the inspector robot's
      -- thread: the robot reaches its next waypoint.
      if c.iRemaining ≠ [] ∧ c.iActive then
        some { c with
          allPoints := (inspectionOnPoint c.iMissionId P.inspectorTemp
            (c.clock : ℚ) c.allPoints c.temperatures
            (c.iRemaining.headD ⟨0, 0⟩)).1,
          temperatures := (inspectionOnPoint c.iMissionId
            P.inspectorTemp (c.clock : ℚ) c.allPoints c.temperatures
            (c.iRemaining.headD ⟨0, 0⟩)).2,
          iRemaining := c.iRemaining.tail, clock := c.clock + 1 }
      else none
  | .iFinish =>
      -- InspectionController._on_finish on the inspector robot's
      -- thread, once all waypoints are consumed: status=FINISHED,
      -- record times, trigger inspector_done.
      if c.iActive ∧ c.iRemaining = [] then
        some { c with
          iStatus := .FINISHED,
          iTimes := c.iTimes ++ [(c.iStartTime, c.clock)],
          inspectorDone := true, iActive := false,
          routinesDone := c.routinesDone + 1,
          lastRoutineDone := c.lastRoutineDone ||
            decide (c.iMissionId + 1 = P.basePositions.length),
          clock := c.clock + 1 }
      else none
  | .iAwaitDone =>
      -- wait_for_inspector_done / clear / robot.stop_routine.
      if c.iPC = .atWaitDone ∧ c.inspectorDone then
        some { c with
          inspectorDone := false, iPC := .atCheck,
          clock := c.clock + 1 }
      else none
  | .iExit =>
      -- After the loop: status=FINISHED.
      if c.iPC = .atExit then
        some { c with
          iStatus := .FINISHED, iPC := .atCallback,
          clock := c.clock + 1 }
      else none
  | .iFinishAll =>
      -- The inspector's _callback_onFinishAll invocation.
      if c.iPC = .atCallback then
        some { finishBody P.basePositions.length c with
          iPC := .iDone, clock := c.clock + 1 }
      else none

/-- A disabled step leaves the state unchanged (the scheduler simply
did not advance that thread). -/
def opStepD (P : OpParams) (c : OpCfg) (l : Label) : OpCfg :=
  (opStep P c l).getD c

/-- Run a label sequence. -/
def opRun (P : OpParams) (c : OpCfg) (ls : List Label) : OpCfg :=
  ls.foldl (opStepD P) c

/-- The state after `OperationController.__init__` (both threads
constructed but not started). -/
def opInit : OpCfg :=
  { opStarted := false, opStatus := .NOT_STARTED, startTime := none,
    finishedTime := none, startNextExploration := false,
    stopExploration := false, inspectorDone := false, queue := [],
    allPoints := [], temperatures := [], ePC := .atCheck,
    eMissionId := 0, eStatus := .NOT_STARTED, ePointsCur := [],
    eTimes := [], ePhaseStart := 0, eActive := false, iPC := .atCheck,
    iMissionId := 0, iStatus := .NOT_STARTED, iTimes := [],
    iStartTime := 0, iActive := false, iRemaining := [], puts := 0,
    gets := 0, phasesStarted := 0, phasesDone := 0, routinesDone := 0,
    starts := 0, finishCount := 0, lastPhaseDone := false,
    lastRoutineDone := false, clock := 0 }

/-- The inductive invariant of the operation transition system.  The
conjuncts, in order:
A1/A2: the explorer robot routine runs, and the explorer status is
  RUNNING, exactly while the driver sits between start and stop;
A3: the explorer mission id never passes `n - 1`
  (`start_next_exploration` refuses);
A4: every event-set of `start_next_exploration` after the initial one
  comes with a mission-id pre-increment;
A5: phase starts consume event-sets (level-triggered flag);
A6/A7: completed phases against started phases and queue puts;
A8: queue length balances puts against gets;
B1-B4: the inspector mission id is the number of dequeues minus one
  (it increments only from the second dequeue on);
B5/B6: the inspector robot routine runs exactly while the status is
  RUNNING, between start_routine and the finish callback;
B7: dequeues against finished routines;
B8: `inspector_done` is only pending while the driver waits on it;
C1: before `start()` nothing has moved;
C2/C3: once all `n` phases (routines) are done, one of them completed
  at mission id `n - 1`;
C4: each driver runs its completion callback at most once;
C5: the operation is FINISHED exactly when some callback stamped it;
C6: a stamped operation implies both drivers finished mission `n - 1`
  (for `n ≥ 2`);
C7: one (start, finish) record per completed phase/routine;
C8: the current mission's points are pairwise at least
  `DRONE_VISIBILITY` apart. -/
def OpInv (P : OpParams) (c : OpCfg) : Prop :=
  (c.eActive = true ↔ c.ePC = .atWaitStop) ∧
  (c.eStatus = .RUNNING ↔ c.ePC = .atWaitStop) ∧
  (c.eMissionId = 0 ∨ c.eMissionId + 1 ≤ P.basePositions.length) ∧
  (c.starts = c.eMissionId + (if c.opStarted then 1 else 0)) ∧
  (c.phasesStarted + (if c.startNextExploration then 1 else 0) ≤ c.starts) ∧
  (c.phasesDone + (if c.ePC = .atWaitStop then 1 else 0) = c.phasesStarted) ∧
  (c.puts = c.phasesDone) ∧
  (c.queue.length + c.gets = c.puts) ∧
  (c.iStatus = .NOT_STARTED → c.gets = 0 ∧ c.iMissionId = 0) ∧
  (c.gets = 0 → c.iMissionId = 0) ∧
  (1 ≤ c.gets → c.iMissionId + 1 = c.gets) ∧
  (c.gets = 0 → c.iStatus ≠ .NOT_STARTED →
    c.iPC = .atCallback ∨ c.iPC = .iDone) ∧
  (c.iActive = true ↔ c.iStatus = .RUNNING) ∧
  (c.iActive = true → c.iPC = .atWaitDone) ∧
  (c.gets = c.routinesDone + (if c.iActive then 1 else 0)) ∧
  (c.inspectorDone = true → c.iActive = false ∧ c.iPC = .atWaitDone) ∧
  (c.opStarted = false → c.ePC = .atCheck ∧ c.iPC = .atCheck ∧
    c.phasesStarted = 0 ∧ c.phasesDone = 0 ∧ c.puts = 0 ∧ c.gets = 0 ∧
    c.routinesDone = 0 ∧ c.finishCount = 0 ∧ c.eStatus = .NOT_STARTED ∧
    c.iStatus = .NOT_STARTED ∧ c.eActive = false ∧ c.iActive = false ∧
    c.opStatus = .NOT_STARTED) ∧
  (1 ≤ P.basePositions.length → P.basePositions.length ≤ c.phasesDone →
    c.lastPhaseDone = true) ∧
  (1 ≤ P.basePositions.length → P.basePositions.length ≤ c.routinesDone →
    c.lastRoutineDone = true) ∧
  (c.finishCount ≤ (if c.ePC = .eDone then 1 else 0) +
    (if c.iPC = .iDone then 1 else 0)) ∧
  (c.opStatus = .FINISHED ↔ 1 ≤ c.finishCount) ∧
  (2 ≤ P.basePositions.length → 1 ≤ c.finishCount →
    c.lastPhaseDone = true ∧ c.lastRoutineDone = true) ∧
  (c.eTimes.length = c.phasesDone) ∧
  (c.iTimes.length = c.routinesDone) ∧
  (c.ePointsCur.Pairwise farApart)

theorem opInv_init (P : OpParams) : OpInv P opInit := by
  refine ⟨?_, ?_, ?_, ?_, ?_, ?_, ?_, ?_, ?_, ?_, ?_, ?_, ?_, ?_, ?_,
    ?_, ?_, ?_, ?_, ?_, ?_, ?_, ?_, ?_, ?_⟩ <;> simp [opInit]
  all_goals (intro h1 h2; rw [h2] at h1; simp at h1)

theorem opInv_step (P : OpParams) (c : OpCfg) (l : Label)
    (h : OpInv P c) : OpInv P (opStepD P c l) := by
  obtain ⟨hA1, hA2, hA3, hA4, hA5, hA6, hA7, hA8, hB1, hB2, hB3, hB4,
    hB5, hB6, hB7, hB8, hC1, hC2, hC3, hC4, hC5, hC6, hC7a, hC7b, hC8⟩ :=
    id h
  cases l with
  | startOp =>
      simp only [opStepD, opStep, Option.getD_some]
      split
      case isTrue => exact h
      case isFalse hst =>
        have hop : c.opStarted = false := by simpa using hst
        have hC1' := hC1 hop
        refine ⟨?_, ?_, ?_, ?_, ?_, ?_, ?_, ?_, ?_, ?_, ?_, ?_, ?_, ?_,
          ?_, ?_, ?_, ?_, ?_, ?_, ?_, ?_, ?_, ?_, ?_⟩ <;>
          (try simp_all) <;> (try omega)
        all_goals (intro h1 h2; rw [h2] at h1; simp at h1)
  | nextMission =>
      simp only [opStepD, opStep, Option.getD_some]
      split
      case isTrue =>
        exact ⟨hA1, hA2, hA3, hA4, hA5, hA6, hA7, hA8, hB1, hB2, hB3, hB4,
          hB5, hB6, hB7, hB8, hC1, hC2, hC3, hC4, hC5, hC6, hC7a, hC7b, hC8⟩
      case isFalse hg1 =>
        split
        case isTrue =>
          exact ⟨hA1, hA2, hA3, hA4, hA5, hA6, hA7, hA8, hB1, hB2, hB3, hB4,
            hB5, hB6, hB7, hB8, hC1, hC2, hC3, hC4, hC5, hC6, hC7a, hC7b, hC8⟩
        case isFalse hg2 =>
          simp only [Option.getD_some]
          have hlt : c.eMissionId + 1 < P.basePositions.length :=
            Nat.lt_of_not_ge hg1
          refine ⟨hA1, hA2, ?_, ?_, ?_, hA6, hA7, hA8, hB1, hB2, hB3, hB4,
            hB5, hB6, hB7, hB8, hC1, hC2, hC3, hC4, hC5, hC6, hC7a, hC7b,
            hC8⟩
          · right
            dsimp only
            omega
          · dsimp only
            rw [hA4]
            omega
          · dsimp only
            simp
            omega
  | stopInspection =>
      simp only [opStepD, opStep, Option.getD_some]
      exact ⟨hA1, hA2, hA3, hA4, hA5, hA6, hA7, hA8, hB1, hB2, hB3, hB4,
        hB5, hB6, hB7, hB8, hC1, hC2, hC3, hC4, hC5, hC6, hC7a, hC7b, hC8⟩
  | eCheck =>
      simp only [opStepD, opStep]
      split
      case isFalse => exact h
      case isTrue hg =>
        simp only [Option.getD_some]
        obtain ⟨hgo, hgpc⟩ := hg
        have hnpc1 : (if c.eMissionId + 1 < P.basePositions.length then
            EPC.atWaitStart else EPC.atExit) ≠ EPC.atWaitStop := by
          split <;> decide
        have hnpc2 : (if c.eMissionId + 1 < P.basePositions.length then
            EPC.atWaitStart else EPC.atExit) ≠ EPC.eDone := by
          split <;> decide
        rw [hgpc] at hA1 hA2 hA6 hC4
        refine ⟨?_, ?_, hA3, hA4, hA5, ?_, hA7, hA8, hB1, hB2, hB3, hB4,
          hB5, hB6, hB7, hB8, ?_, hC2, hC3, ?_, hC5, hC6, hC7a, hC7b, hC8⟩
        · dsimp only
          simp only [hnpc1, iff_false]
          intro he
          exact absurd (hA1.mp he) (by decide)
        · dsimp only
          simp only [hnpc1, iff_false]
          intro he
          exact absurd (hA2.mp he) (by decide)
        · dsimp only
          simp only [hnpc1, if_false] at *
          simpa using hA6
        · dsimp only
          intro hf
          rw [hgo] at hf
          exact absurd hf (by decide)
        · dsimp only
          simp only [hnpc2, if_false]
          simp at hC4
          omega
  | eStartPhase =>
      simp only [opStepD, opStep]
      split
      case isFalse => exact h
      case isTrue hg =>
        simp only [Option.getD_some]
        obtain ⟨hgpc, hgf⟩ := hg
        refine ⟨?_, ?_, hA3, hA4, ?_, ?_, hA7, hA8, hB1, hB2, hB3, hB4,
          hB5, hB6, hB7, hB8, ?_, hC2, hC3, ?_, hC5, hC6, hC7a, hC7b, hC8⟩
        · dsimp only; simp
        · dsimp only; simp
        · dsimp only
          rw [hgf] at hA5
          simp at hA5 ⊢
          omega
        · dsimp only
          rw [hgpc] at hA6
          simp at hA6 ⊢
          omega
        · dsimp only
          intro hf
          exact absurd ((hC1 hf).1.symm.trans hgpc) (by decide)
        · dsimp only
          rw [hgpc] at hC4
          simp at hC4 ⊢
          omega
  | ePoint p =>
      simp only [opStepD, opStep]
      split
      case isFalse => exact h
      case isTrue hg =>
        simp only [Option.getD_some]
        refine ⟨hA1, hA2, hA3, hA4, hA5, hA6, hA7, hA8, hB1, hB2, hB3,
          hB4, hB5, hB6, hB7, hB8, ?_, hC2, hC3, hC4, hC5, hC6, hC7a,
          hC7b, ?_⟩
        · dsimp only
          intro hf
          have hea := (hC1 hf).2.2.2.2.2.2.2.2.2.2.1
          rw [hg] at hea
          exact absurd hea (by decide)
        · exact explorationOnPoint_pairwise _ _ _ _ _ _ hC8
  | eStopPhase =>
      simp only [opStepD, opStep]
      split
      case isFalse => exact h
      case isTrue hg =>
        simp only [Option.getD_some]
        obtain ⟨hgpc, hgf⟩ := hg
        refine ⟨?_, ?_, hA3, hA4, ?_, ?_, ?_, ?_, hB1, hB2, hB3, hB4,
          hB5, hB6, hB7, hB8, ?_, ?_, ?_, ?_, hC5, ?_, ?_, hC7b, ?_⟩
        · dsimp only; simp
        · dsimp only; simp
        · dsimp only
          exact hA5
        · dsimp only
          rw [hgpc] at hA6
          simp at hA6 ⊢
          omega
        · dsimp only
          omega
        · dsimp only
          simp
          omega
        · dsimp only
          intro hf
          exact absurd ((hC1 hf).1.symm.trans hgpc) (by decide)
        · dsimp only
          intro hn1 hn2
          by_cases hge : P.basePositions.length ≤ c.phasesDone
          · simp [hC2 hn1 hge]
          · have hid : c.eMissionId + 1 = P.basePositions.length := by
              rw [hgpc] at hA6
              simp at hA6
              rcases hA3 with h0 | hle <;>
                cases hop : c.opStarted <;> rw [hop] at hA4 <;>
                simp at hA4 <;>
                cases hsne : c.startNextExploration <;> rw [hsne] at hA5 <;>
                simp at hA5 <;> omega
            simp [hid]
        · dsimp only
          exact hC3
        · dsimp only
          rw [hgpc] at hC4
          simp at hC4 ⊢
          omega
        · dsimp only
          intro hn2 hfc
          obtain ⟨f1, f2⟩ := hC6 hn2 hfc
          simp [f1, f2]
        · dsimp only
          simp
          omega
        · dsimp only
          simp
  | eExit =>
      simp only [opStepD, opStep]
      split
      case isFalse => exact h
      case isTrue hgpc =>
        simp only [Option.getD_some]
        refine ⟨?_, ?_, hA3, hA4, hA5, ?_, hA7, hA8, hB1, hB2, hB3, hB4,
          hB5, hB6, hB7, hB8, ?_, hC2, hC3, ?_, hC5, hC6, hC7a, hC7b, hC8⟩
        · dsimp only
          simp only [show EPC.atCallback ≠ EPC.atWaitStop from by decide,
            iff_false]
          intro he
          exact absurd ((hA1.mp he).symm.trans hgpc) (by decide)
        · dsimp only
          simp
        · dsimp only
          rw [hgpc] at hA6
          simp at hA6 ⊢
          omega
        · dsimp only
          intro hf
          exact absurd ((hC1 hf).1.symm.trans hgpc) (by decide)
        · dsimp only
          rw [hgpc] at hC4
          simp at hC4 ⊢
          omega
  | eFinishAll =>
      simp only [opStepD, opStep]
      split
      case isFalse => exact h
      case isTrue hgpc =>
        simp only [Option.getD_some, finishBody]
        have hea : c.eActive = false := by
          cases he : c.eActive
          · rfl
          · exact absurd ((hA1.mp he).symm.trans hgpc) (by decide)
        have hes : c.eStatus ≠ .RUNNING := by
          intro hr
          exact absurd ((hA2.mp hr).symm.trans hgpc) (by decide)
        split
        case isTrue hcond =>
          refine ⟨?_, ?_, hA3, hA4, hA5, ?_, hA7, hA8, hB1, hB2, hB3, hB4,
            hB5, hB6, hB7, hB8, ?_, hC2, hC3, ?_, ?_, ?_, hC7a, hC7b, hC8⟩
          · dsimp only
            simp [hea]
          · dsimp only
            simp only [show EPC.eDone ≠ EPC.atWaitStop from by decide,
              iff_false]
            exact hes
          · dsimp only
            rw [hgpc] at hA6
            simp at hA6 ⊢
            omega
          · dsimp only
            intro hf
            exact absurd ((hC1 hf).1.symm.trans hgpc) (by decide)
          · dsimp only
            rw [hgpc] at hC4
            simp at hC4 ⊢
            omega
          · dsimp only
            simp
          · dsimp only
            intro hn2 _
            obtain ⟨hev, hes', hiv, his⟩ := hcond
            have hg1 : 1 ≤ c.gets := by
              by_contra hg0
              push_neg at hg0
              have := hB2 (by omega)
              omega
            have hge : c.gets = P.basePositions.length := by
              have := hB3 hg1
              omega
            have hpd : P.basePositions.length ≤ c.phasesDone := by omega
            have hia : c.iActive = false := by
              cases hi : c.iActive
              · rfl
              · have hrun := hB5.mp hi
                rw [his] at hrun
                exact absurd hrun (by decide)
            have hrd : P.basePositions.length ≤ c.routinesDone := by
              rw [hia] at hB7
              simp at hB7
              omega
            exact ⟨hC2 (by omega) hpd, hC3 (by omega) hrd⟩
        case isFalse hcond =>
          refine ⟨?_, ?_, hA3, hA4, hA5, ?_, hA7, hA8, hB1, hB2, hB3, hB4,
            hB5, hB6, hB7, hB8, ?_, hC2, hC3, ?_, hC5, hC6, hC7a, hC7b,
            hC8⟩
          · dsimp only
            simp [hea]
          · dsimp only
            simp only [show EPC.eDone ≠ EPC.atWaitStop from by decide,
              iff_false]
            exact hes
          · dsimp only
            rw [hgpc] at hA6
            simp at hA6 ⊢
            omega
          · dsimp only
            intro hf
            exact absurd ((hC1 hf).1.symm.trans hgpc) (by decide)
          · dsimp only
            rw [hgpc] at hC4
            simp at hC4 ⊢
            omega
  | iCheck =>
      simp only [opStepD, opStep]
      split
      case isFalse => exact h
      case isTrue hg =>
        simp only [Option.getD_some]
        obtain ⟨hgo, hgpc⟩ := hg
        have hnpc1 : (if c.iMissionId + 1 < P.basePositions.length then
            IPC.atGet else IPC.atExit) ≠ IPC.iDone := by
          split <;> decide
        refine ⟨hA1, hA2, hA3, hA4, hA5, hA6, hA7, hA8, hB1, hB2, hB3,
          ?_, hB5, ?_, hB7, ?_, ?_, hC2, hC3, ?_, hC5, hC6, hC7a, hC7b,
          hC8⟩
        · dsimp only
          intro hg0 hns
          rcases hB4 hg0 hns with hpc | hpc <;>
            exact absurd (hpc.symm.trans hgpc) (by decide)
        · dsimp only
          intro hi
          exact absurd ((hB6 hi).symm.trans hgpc) (by decide)
        · dsimp only
          intro hd
          exact absurd ((hB8 hd).2.symm.trans hgpc) (by decide)
        · dsimp only
          intro hf
          rw [hgo] at hf
          exact absurd hf (by decide)
        · dsimp only
          simp only [hnpc1, if_false]
          rw [hgpc] at hC4
          simp at hC4 ⊢
          omega
  | iGet =>
      simp only [opStepD, opStep]
      split
      case isFalse => exact h
      case isTrue hg =>
        simp only [Option.getD_some]
        obtain ⟨hgq, hgpc⟩ := hg
        have hia : c.iActive = false := by
          cases hi : c.iActive
          · rfl
          · exact absurd ((hB6 hi).symm.trans hgpc) (by decide)
        have hdn : c.inspectorDone = false := by
          cases hd : c.inspectorDone
          · rfl
          · exact absurd ((hB8 hd).2.symm.trans hgpc) (by decide)
        have hql : 1 ≤ c.queue.length := by
          cases hq : c.queue
          · exact absurd hq hgq
          · simp [hq]
        refine ⟨hA1, hA2, hA3, hA4, hA5, hA6, hA7, ?_, ?_, ?_, ?_,
          ?_, ?_, ?_, ?_, ?_, ?_, hC2, hC3, ?_, hC5, hC6, hC7a, hC7b,
          hC8⟩
        · dsimp only
          simp only [List.length_tail]
          omega
        · dsimp only
          intro hns
          exact absurd hns (by decide)
        · dsimp only
          omega
        · dsimp only
          intro _
          split
          case isTrue hns =>
            have hg1 : 1 ≤ c.gets := by
              by_contra hg0
              push_neg at hg0
              rcases hB4 (by omega) (by simpa using hns) with hpc | hpc <;>
                exact absurd (hpc.symm.trans hgpc) (by decide)
            have := hB3 hg1
            omega
          case isFalse hns =>
            have hns' : c.iStatus = .NOT_STARTED := by
              by_contra hx
              exact hns (by simpa using hx)
            have := hB1 hns'
            omega
        · dsimp only
          intro hg0
          exact absurd hg0 (by omega)
        · dsimp only
          simp
        · dsimp only
          intro _
          rfl
        · dsimp only
          rw [hia] at hB7
          simp at hB7
          simp
          omega
        · dsimp only
          intro hd
          rw [hdn] at hd
          exact absurd hd (by decide)
        · dsimp only
          intro hf
          exfalso
          obtain ⟨-, -, -, -, hput, hget, -⟩ := hC1 hf
          omega
        · dsimp only
          rw [hgpc] at hC4
          simp at hC4 ⊢
          omega
  | iPoint =>
      simp only [opStepD, opStep]
      split
      case isFalse => exact h
      case isTrue hg =>
        simp only [Option.getD_some]
        obtain ⟨hgr, hgact⟩ := hg
        refine ⟨hA1, hA2, hA3, hA4, hA5, hA6, hA7, hA8, hB1, hB2, hB3,
          hB4, hB5, hB6, hB7, hB8, ?_, hC2, hC3, hC4, hC5, hC6, hC7a,
          hC7b, hC8⟩
        dsimp only
        intro hf
        have hia := (hC1 hf).2.2.2.2.2.2.2.2.2.2.2.1
        rw [hgact] at hia
        exact absurd hia (by decide)
  | iFinish =>
      simp only [opStepD, opStep]
      split
      case isFalse => exact h
      case isTrue hg =>
        simp only [Option.getD_some]
        obtain ⟨hgact, hgrem⟩ := hg
        refine ⟨hA1, hA2, hA3, hA4, hA5, hA6, hA7, hA8, ?_, hB2, hB3,
          ?_, ?_, ?_, ?_, ?_, ?_, hC2, ?_, hC4, hC5, ?_, hC7a, ?_, hC8⟩
        · dsimp only
          intro hns
          exact absurd hns (by decide)
        · dsimp only
          intro hg0 _
          exfalso
          rw [hgact] at hB7
          simp at hB7
          omega
        · dsimp only
          simp
        · dsimp only
          intro hi
          exact absurd hi (by decide)
        · dsimp only
          rw [hgact] at hB7
          simp at hB7
          simp
          omega
        · dsimp only
          intro _
          exact ⟨rfl, hB6 hgact⟩
        · dsimp only
          intro hf
          have hia := (hC1 hf).2.2.2.2.2.2.2.2.2.2.2.1
          rw [hgact] at hia
          exact absurd hia (by decide)
        · dsimp only
          intro hn1 hn2
          by_cases hge : P.basePositions.length ≤ c.routinesDone
          · simp [hC3 hn1 hge]
          · have hgets : c.gets = c.routinesDone + 1 := by
              rw [hgact] at hB7
              simpa using hB7
            have hid : c.iMissionId + 1 = P.basePositions.length := by
              have := hB3 (by omega)
              omega
            simp [hid]
        · dsimp only
          intro hn2 hfc
          obtain ⟨f1, f2⟩ := hC6 hn2 hfc
          simp [f1, f2]
        · dsimp only
          simp
          omega
  | iAwaitDone =>
      simp only [opStepD, opStep]
      split
      case isFalse => exact h
      case isTrue hg =>
        simp only [Option.getD_some]
        obtain ⟨hgpc, hgd⟩ := hg
        have hia : c.iActive = false := (hB8 hgd).1
        refine ⟨hA1, hA2, hA3, hA4, hA5, hA6, hA7, hA8, hB1, hB2, hB3,
          ?_, hB5, ?_, hB7, ?_, ?_, hC2, hC3, ?_, hC5, hC6, hC7a, hC7b,
          hC8⟩
        · dsimp only
          intro hg0 hns
          rcases hB4 hg0 hns with hpc | hpc <;>
            exact absurd (hpc.symm.trans hgpc) (by decide)
        · dsimp only
          intro hi
          rw [hia] at hi
          exact absurd hi (by decide)
        · dsimp only
          intro hd
          exact absurd hd (by decide)
        · dsimp only
          intro hf
          exact absurd ((hC1 hf).2.1.symm.trans hgpc) (by decide)
        · dsimp only
          rw [hgpc] at hC4
          simp at hC4 ⊢
          omega
  | iExit =>
      simp only [opStepD, opStep]
      split
      case isFalse => exact h
      case isTrue hgpc =>
        simp only [Option.getD_some]
        have hia : c.iActive = false := by
          cases hi : c.iActive
          · rfl
          · exact absurd ((hB6 hi).symm.trans hgpc) (by decide)
        have hdn : c.inspectorDone = false := by
          cases hd : c.inspectorDone
          · rfl
          · exact absurd ((hB8 hd).2.symm.trans hgpc) (by decide)
        refine ⟨hA1, hA2, hA3, hA4, hA5, hA6, hA7, hA8, ?_, hB2, hB3,
          ?_, ?_, ?_, hB7, ?_, ?_, hC2, hC3, ?_, hC5, hC6, hC7a, hC7b,
          hC8⟩
        · dsimp only
          intro hns
          exact absurd hns (by decide)
        · dsimp only
          intro _ _
          left
          rfl
        · dsimp only
          rw [hia]
          simp
        · dsimp only
          intro hi
          rw [hia] at hi
          exact absurd hi (by decide)
        · dsimp only
          intro hd
          rw [hdn] at hd
          exact absurd hd (by decide)
        · dsimp only
          intro hf
          exact absurd ((hC1 hf).2.1.symm.trans hgpc) (by decide)
        · dsimp only
          rw [hgpc] at hC4
          simp at hC4 ⊢
          omega
  | iFinishAll =>
      simp only [opStepD, opStep]
      split
      case isFalse => exact h
      case isTrue hgpc =>
        simp only [Option.getD_some, finishBody]
        have hia : c.iActive = false := by
          cases hi : c.iActive
          · rfl
          · exact absurd ((hB6 hi).symm.trans hgpc) (by decide)
        have hdn : c.inspectorDone = false := by
          cases hd : c.inspectorDone
          · rfl
          · exact absurd ((hB8 hd).2.symm.trans hgpc) (by decide)
        split
        case isTrue hcond =>
          refine ⟨hA1, hA2, hA3, hA4, hA5, hA6, hA7, hA8, ?_, hB2, hB3,
            ?_, ?_, ?_, hB7, ?_, ?_, hC2, hC3, ?_, ?_, ?_, hC7a, hC7b,
            hC8⟩
          · dsimp only
            exact hB1
          · dsimp only
            intro _ _
            right
            rfl
          · dsimp only
            exact hB5
          · dsimp only
            intro hi
            rw [hia] at hi
            exact absurd hi (by decide)
          · dsimp only
            intro hd
            rw [hdn] at hd
            exact absurd hd (by decide)
          · dsimp only
            intro hf
            exact absurd ((hC1 hf).2.1.symm.trans hgpc) (by decide)
          · dsimp only
            rw [hgpc] at hC4
            simp at hC4 ⊢
            omega
          · dsimp only
            simp
          · dsimp only
            intro hn2 _
            obtain ⟨hev, hes', hiv, his⟩ := hcond
            have hg1 : 1 ≤ c.gets := by
              by_contra hg0
              push_neg at hg0
              have := hB2 (by omega)
              omega
            have hge : c.gets = P.basePositions.length := by
              have := hB3 hg1
              omega
            have hpd : P.basePositions.length ≤ c.phasesDone := by omega
            have hrd : P.basePositions.length ≤ c.routinesDone := by
              rw [hia] at hB7
              simp at hB7
              omega
            exact ⟨hC2 (by omega) hpd, hC3 (by omega) hrd⟩
        case isFalse hcond =>
          refine ⟨hA1, hA2, hA3, hA4, hA5, hA6, hA7, hA8, ?_, hB2, hB3,
            ?_, ?_, ?_, hB7, ?_, ?_, hC2, hC3, ?_, hC5, hC6, hC7a, hC7b,
            hC8⟩
          · dsimp only
            exact hB1
          · dsimp only
            intro _ _
            right
            rfl
          · dsimp only
            exact hB5
          · dsimp only
            intro hi
            rw [hia] at hi
            exact absurd hi (by decide)
          · dsimp only
            intro hd
            rw [hdn] at hd
            exact absurd hd (by decide)
          · dsimp only
            intro hf
            exact absurd ((hC1 hf).2.1.symm.trans hgpc) (by decide)
          · dsimp only
            rw [hgpc] at hC4
            simp at hC4 ⊢
            omega

theorem opInv_run (P : OpParams) (ls : List Label) :
    OpInv P (opRun P opInit ls) := by
  have hgen : ∀ c, OpInv P c → OpInv P (opRun P c ls) := by
    induction ls with
    | nil => intro c hc; exact hc
    | cons l rest ih => intro c hc; exact ih _ (opInv_step P c l hc)
  exact hgen _ (opInv_init P)

/-- C5: in every reachable state of the two-driver system the
inspection driver's current mission id is at most the exploration
driver's current mission id — the inspector never overtakes the
explorer. -/
theorem c5_inspector_never_overtakes (P : OpParams) (ls : List Label) :
    (opRun P opInit ls).iMissionId ≤ (opRun P opInit ls).eMissionId := by
  obtain ⟨hA1, hA2, hA3, hA4, hA5, hA6, hA7, hA8, hB1, hB2, hB3, hB4,
    hB5, hB6, hB7, hB8, hC1, hC2, hC3, hC4, hC5, hC6, hC7a, hC7b, hC8⟩ :=
    opInv_run P ls
  by_cases hg : (opRun P opInit ls).gets = 0
  · rw [hB2 hg]
    omega
  · have h1 := hB3 (by omega)
    cases hop : (opRun P opInit ls).opStarted
    · obtain ⟨-, -, -, -, -, hgets, -⟩ := hC1 hop
      exact absurd hgets hg
    · rw [hop] at hA4
      simp at hA4
      omega

/-- C4 (amended): for an operation with at least two missions, any
transition of the operation to FINISHED (equivalently, any execution of
the guarded finish body, which stamps `finished_time` and saves the
metrics) happens only after the exploration driver has completed an
exploration phase at mission N-1 and the inspection driver has
completed an inspection routine at mission N-1; the finish body runs at
most twice (once per driver completion callback, not exactly once as
the original claim states); and each driver records exactly one
(start, finish) pair per completed phase/routine. -/
theorem c4_finish_transition (P : OpParams) (ls : List Label)
    (hn : 2 ≤ P.basePositions.length) :
    ((opRun P opInit ls).opStatus = .FINISHED →
      (opRun P opInit ls).lastPhaseDone = true ∧
      (opRun P opInit ls).lastRoutineDone = true) ∧
    (opRun P opInit ls).finishCount ≤ 2 ∧
    (opRun P opInit ls).eTimes.length = (opRun P opInit ls).phasesDone ∧
    (opRun P opInit ls).iTimes.length = (opRun P opInit ls).routinesDone := by
  obtain ⟨hA1, hA2, hA3, hA4, hA5, hA6, hA7, hA8, hB1, hB2, hB3, hB4,
    hB5, hB6, hB7, hB8, hC1, hC2, hC3, hC4, hC5, hC6, hC7a, hC7b, hC8⟩ :=
    opInv_run P ls
  refine ⟨?_, ?_, hC7a, hC7b⟩
  · intro hfin
    exact hC6 hn (hC5.mp hfin)
  · by_cases h1 : (opRun P opInit ls).ePC = .eDone <;>
      by_cases h2 : (opRun P opInit ls).iPC = .iDone <;>
      simp [h1, h2] at hC4 <;> omega

/-- Witness for `c4_finish_transition` at two base stations and the
schedule in which both completion callbacks run after everything is
done: the finish body runs twice, and both `last…Done` flags hold. -/
theorem c4_finish_transition_witness :
    2 ≤ (OpParams.mk [⟨0, 0⟩, ⟨1, 1⟩] nnPlanPath ⟨0, 0⟩
      none).basePositions.length ∧
    ((opRun (OpParams.mk [⟨0, 0⟩, ⟨1, 1⟩] nnPlanPath ⟨0, 0⟩ none) opInit
        [.startOp, .eCheck, .eStartPhase, .stopInspection, .eStopPhase,
         .eCheck, .nextMission, .eStartPhase, .stopInspection,
         .eStopPhase, .eCheck, .eExit, .iCheck, .iGet, .iFinish,
         .iAwaitDone, .iCheck, .iGet, .iFinish, .iAwaitDone, .iCheck,
         .iExit, .iFinishAll, .eFinishAll]).opStatus = .FINISHED →
      (opRun (OpParams.mk [⟨0, 0⟩, ⟨1, 1⟩] nnPlanPath ⟨0, 0⟩ none) opInit
        [.startOp, .eCheck, .eStartPhase, .stopInspection, .eStopPhase,
         .eCheck, .nextMission, .eStartPhase, .stopInspection,
         .eStopPhase, .eCheck, .eExit, .iCheck, .iGet, .iFinish,
         .iAwaitDone, .iCheck, .iGet, .iFinish, .iAwaitDone, .iCheck,
         .iExit, .iFinishAll, .eFinishAll]).lastPhaseDone = true ∧
      (opRun (OpParams.mk [⟨0, 0⟩, ⟨1, 1⟩] nnPlanPath ⟨0, 0⟩ none) opInit
        [.startOp, .eCheck, .eStartPhase, .stopInspection, .eStopPhase,
         .eCheck, .nextMission, .eStartPhase, .stopInspection,
         .eStopPhase, .eCheck, .eExit, .iCheck, .iGet, .iFinish,
         .iAwaitDone, .iCheck, .iGet, .iFinish, .iAwaitDone, .iCheck,
         .iExit, .iFinishAll, .eFinishAll]).lastRoutineDone = true) :=
  ⟨by decide,
    (c4_finish_transition (OpParams.mk [⟨0, 0⟩, ⟨1, 1⟩] nnPlanPath ⟨0, 0⟩
      none)
      [.startOp, .eCheck, .eStartPhase, .stopInspection, .eStopPhase,
       .eCheck, .nextMission, .eStartPhase, .stopInspection,
       .eStopPhase, .eCheck, .eExit, .iCheck, .iGet, .iFinish,
       .iAwaitDone, .iCheck, .iGet, .iFinish, .iAwaitDone, .iCheck,
       .iExit, .iFinishAll, .eFinishAll] (by decide)).1⟩

/-- C4 counterexample: (a) with two base stations there is a schedule
on which the guarded finish body runs twice — the inspector finishes
everything between the explorer's last queue push and the explorer's
own completion callback, so both callbacks observe the completed state
and both stamp the operation ("exactly once" fails); (b) with a single
base station the operation reaches FINISHED although neither driver
ever ran a phase or a routine ("only after both drivers have finished
mission N-1" fails for N = 1). -/
theorem c4_finish_exactly_once_counterexample :
    (opRun (OpParams.mk [⟨0, 0⟩, ⟨1, 1⟩] nnPlanPath ⟨0, 0⟩ none) opInit
      [.startOp, .eCheck, .eStartPhase, .stopInspection, .eStopPhase,
       .eCheck, .nextMission, .eStartPhase, .stopInspection,
       .eStopPhase, .eCheck, .eExit, .iCheck, .iGet, .iFinish,
       .iAwaitDone, .iCheck, .iGet, .iFinish, .iAwaitDone, .iCheck,
       .iExit, .iFinishAll, .eFinishAll]).finishCount = 2 ∧
    ((opRun (OpParams.mk [⟨0, 0⟩] nnPlanPath ⟨0, 0⟩ none) opInit
        [.startOp, .eCheck, .eExit, .eFinishAll, .iCheck, .iExit,
         .iFinishAll]).opStatus = .FINISHED ∧
      (opRun (OpParams.mk [⟨0, 0⟩] nnPlanPath ⟨0, 0⟩ none) opInit
        [.startOp, .eCheck, .eExit, .eFinishAll, .iCheck, .iExit,
         .iFinishAll]).phasesDone = 0 ∧
      (opRun (OpParams.mk [⟨0, 0⟩] nnPlanPath ⟨0, 0⟩ none) opInit
        [.startOp, .eCheck, .eExit, .eFinishAll, .iCheck, .iExit,
         .iFinishAll]).routinesDone = 0) := by
  decide

/-- C6 counterexample: a stop-exploration trigger sent while the
exploration driver is NOT_STARTED (so not RUNNING) is not a behavioural
no-op.  After `start()` the operator fires `stop_inspection` before the
explorer thread runs; under the identical subsequent schedule (begin
phase 0, robot reports a point, a regular stop) the run with the stray
trigger ends phase 0 immediately with an empty point list, while the
run without it retains the reported point — the driver does not clear
the latched event before waiting on it. -/
theorem c6_stop_signal_counterexample :
    (opRun (OpParams.mk [⟨0, 0⟩, ⟨10, 10⟩] nnPlanPath ⟨0, 0⟩ none) opInit
      [.startOp]).eStatus = .NOT_STARTED ∧
    (opRun (OpParams.mk [⟨0, 0⟩, ⟨10, 10⟩] nnPlanPath ⟨0, 0⟩ none)
      (opStepD (OpParams.mk [⟨0, 0⟩, ⟨10, 10⟩] nnPlanPath ⟨0, 0⟩ none)
        (opRun (OpParams.mk [⟨0, 0⟩, ⟨10, 10⟩] nnPlanPath ⟨0, 0⟩ none)
          opInit [.startOp]) .stopInspection)
      [.eCheck, .eStartPhase, .eStopPhase, .ePoint ⟨2, 1⟩,
       .stopInspection, .eStopPhase]).queue.map List.length = [0] ∧
    (opRun (OpParams.mk [⟨0, 0⟩, ⟨10, 10⟩] nnPlanPath ⟨0, 0⟩ none)
      (opRun (OpParams.mk [⟨0, 0⟩, ⟨10, 10⟩] nnPlanPath ⟨0, 0⟩ none)
        opInit [.startOp])
      [.eCheck, .eStartPhase, .eStopPhase, .ePoint ⟨2, 1⟩,
       .stopInspection, .eStopPhase]).queue.map List.length = [1] := by
  decide

/-- C6 (amended): triggering stop-exploration while the driver is not
RUNNING leaves every driver- and operation-visible field unchanged at
that moment — the only effect is latching the level-triggered
`stop_exploration` event — but the latched event is consumed by the
next exploration phase as soon as it starts, so the duration and point
collection of later phases are not necessarily as if the signal had
never been sent (witnessed by the concrete schedule below, where the
latched signal empties phase 0's point collection). -/
theorem c6_stop_signal_latched :
    (∀ (P : OpParams) (c : OpCfg),
      (opStepD P c .stopInspection).eStatus = c.eStatus ∧
      (opStepD P c .stopInspection).eMissionId = c.eMissionId ∧
      (opStepD P c .stopInspection).ePC = c.ePC ∧
      (opStepD P c .stopInspection).ePointsCur = c.ePointsCur ∧
      (opStepD P c .stopInspection).eTimes = c.eTimes ∧
      (opStepD P c .stopInspection).queue = c.queue ∧
      (opStepD P c .stopInspection).allPoints = c.allPoints ∧
      (opStepD P c .stopInspection).iMissionId = c.iMissionId ∧
      (opStepD P c .stopInspection).iStatus = c.iStatus ∧
      (opStepD P c .stopInspection).opStatus = c.opStatus ∧
      (opStepD P c .stopInspection).stopExploration = true) ∧
    (opRun (OpParams.mk [⟨0, 0⟩, ⟨10, 10⟩] nnPlanPath ⟨0, 0⟩ none)
      (opStepD (OpParams.mk [⟨0, 0⟩, ⟨10, 10⟩] nnPlanPath ⟨0, 0⟩ none)
        (opRun (OpParams.mk [⟨0, 0⟩, ⟨10, 10⟩] nnPlanPath ⟨0, 0⟩ none)
          opInit [.startOp]) .stopInspection)
      [.eCheck, .eStartPhase, .eStopPhase]).eStatus = .FINISHED ∧
    (opRun (OpParams.mk [⟨0, 0⟩, ⟨10, 10⟩] nnPlanPath ⟨0, 0⟩ none)
      (opRun (OpParams.mk [⟨0, 0⟩, ⟨10, 10⟩] nnPlanPath ⟨0, 0⟩ none)
        opInit [.startOp])
      [.eCheck, .eStartPhase, .eStopPhase]).eStatus = .RUNNING := by
  refine ⟨fun P c => ⟨rfl, rfl, rfl, rfl, rfl, rfl, rfl, rfl, rfl, rfl,
    rfl⟩, by decide, by decide⟩
